import Mathlib

/-!
A verification development for the question generation & curation pipeline
(`python-service/app/ai_engine/question_generator.py`,
`python-service/app/domains/lesson_processing/ai_pipeline.py`,
`python-service/app/domains/lesson_processing/router.py`).

Python machine details are modelled as follows: Python strings are Lean
`String`s (`len`/slicing count code points, as in Python); `str.strip`,
`str.lower` and `string.punctuation` are reimplemented below; dict values
that may be `None` or absent become `Option`; Python floats in the
difficulty-quota computation (`round(total_needed * 0.3)` etc.) are
modelled by exact rationals with Python's round-half-to-even; JSON decoding
(`json.loads`) is modelled by an executable recursive-descent parser over a
JSON value type; the regular-expression scans use a small backtracking
matcher implementing Python `re` leftmost/lazy/greedy semantics for the
concrete patterns appearing in the source.
-/

/-! ## Python string primitives -/

/-- Python `str.strip()` whitespace set: space, tab, newline, carriage
return, vertical tab, form feed. -/
def isPySpace (c : Char) : Bool :=
  c = ' ' || c = '\t' || c = '\n' || c = '\r' || c.toNat = 11 || c.toNat = 12

def pyStripList (l : List Char) : List Char :=
  (l.dropWhile isPySpace).rdropWhile isPySpace

/-- Python `str.strip()`. -/
def pyStrip (s : String) : String := String.mk (pyStripList s.toList)

/-- Python `str.lower()` (ASCII letters; all inputs of interest are ASCII). -/
def pyLower (s : String) : String := String.mk (s.toList.map Char.toLower)

/-- Membership in Python's `string.punctuation`
(ASCII 33–47, 58–64, 91–96, 123–126). -/
def isPyPunct (c : Char) : Bool :=
  (33 ≤ c.toNat && c.toNat ≤ 47) || (58 ≤ c.toNat && c.toNat ≤ 64) ||
  (91 ≤ c.toNat && c.toNat ≤ 96) || (123 ≤ c.toNat && c.toNat ≤ 126)

/-- Python `s.translate(str.maketrans('', '', string.punctuation))`:
delete every punctuation character. -/
def removePunct (s : String) : String :=
  String.mk (s.toList.filter (fun c => !isPyPunct c))

/-- `a` occurs as a contiguous sublist of `b`. -/
def isSubListOf (a : List Char) : List Char → Bool
  | [] => a.isEmpty
  | c :: bs => a.isPrefixOf (c :: bs) || isSubListOf a bs

/-- Python `a in b` on strings (substring containment). -/
def pySubstr (a b : String) : Bool := isSubListOf a.toList b.toList

/-! ## Data model: the formatted question dict

`_validate_questions_robust` emits dicts with exactly these keys; the same
shape flows through `semantic_dedupe`, `enforce_difficulty_ratio` and the
persistence loop of `generate_questions_from_lesson`.  A value of `none`
models Python `None`. -/

structure Candidate where
  question_text : String
  answer_text : Option String
  difficulty : Option String
  max_score : Int
  option_a : Option String
  option_b : Option String
  option_c : Option String
  option_d : Option String
  correct_option : Option String
deriving DecidableEq, Repr

/-! ## Difficulty balancer (`enforce_difficulty_ratio`, ai_pipeline.py) -/

/-- Python `round` on the exact rational value: round half to even. -/
def pyRound (x : ℚ) : ℤ :=
  let f := Int.floor x
  let r := x - f
  if r < 1/2 then f
  else if 1/2 < r then f + 1
  else if Even f then f else f + 1

structure Quotas where
  easy : ℤ
  medium : ℤ
  hard : ℤ
deriving DecidableEq, Repr

def quotaSum (d : Quotas) : ℤ := d.easy + d.medium + d.hard

/-- One step of the reconciliation loop body: `keys = ["medium", "easy",
"hard"]; desired[keys[i % len(keys)]] += 1 if diff > 0 else -1`. -/
def bumpKey (d : Quotas) (i : Nat) (s : ℤ) : Quotas :=
  match i % 3 with
  | 0 => { d with medium := d.medium + s }
  | 1 => { d with easy := d.easy + s }
  | _ => { d with hard := d.hard + s }

/-- The `while diff != 0` loop.  Each iteration moves `quotaSum` by one
toward `total`, so running it with fuel `|total - quotaSum d|` reproduces
the Python loop exactly. -/
def adjustQuotas (total : ℤ) : Nat → Nat → Quotas → Quotas
  | 0, _, d => d
  | fuel+1, i, d =>
    let diff := total - quotaSum d
    if diff = 0 then d
    else adjustQuotas total fuel (i+1) (bumpKey d i (if 0 < diff then 1 else -1))

/-- `desired = {k: int(round(total_needed * v)) for k, v in ratios.items()}`
with the default ratios 0.3 / 0.4 / 0.3. -/
def initialQuotas (total : ℕ) : Quotas :=
  { easy := pyRound ((total : ℚ) * (3/10)),
    medium := pyRound ((total : ℚ) * (4/10)),
    hard := pyRound ((total : ℚ) * (3/10)) }

def computeQuotas (total : ℕ) : Quotas :=
  let d := initialQuotas total
  adjustQuotas total (((total : ℤ) - quotaSum d).natAbs) 0 d

/-- `d = (c.get("difficulty") or "medium").lower(); if d not in buckets:
d = "medium"` — the bucket a candidate lands in. -/
def bucketOf (c : Candidate) : String :=
  let d0 := match c.difficulty with
    | none => "medium"
    | some s => if s = "" then "medium" else s
  let d := pyLower d0
  if d = "easy" || d = "medium" || d = "hard" then d else "medium"

/-- Python slice `l[:n]` for a possibly negative `n`. -/
def pySliceTo {α : Type} (l : List α) (n : ℤ) : List α :=
  if 0 ≤ n then l.take n.toNat else l.take (l.length - (-n).toNat)

/-- The `buckets["easy"]` list built by the `for c in candidates:` loop. -/
def easyBucket (candidates : List Candidate) : List Candidate :=
  candidates.filter (fun c => bucketOf c = "easy")

def mediumBucket (candidates : List Candidate) : List Candidate :=
  candidates.filter (fun c => bucketOf c = "medium")

def hardBucket (candidates : List Candidate) : List Candidate :=
  candidates.filter (fun c => bucketOf c = "hard")

/-- `take = min(len(available), desired.get(k, 0)); available[:take]`. -/
def takeQuota (available : List Candidate) (desired : ℤ) : List Candidate :=
  pySliceTo available (min (available.length : ℤ) desired)

/-- The `for k in ["easy", "medium", "hard"]:` selection loop. -/
def selectedInit (candidates : List Candidate) (total_needed : ℕ) : List Candidate :=
  let d := computeQuotas total_needed
  takeQuota (easyBucket candidates) d.easy ++
  takeQuota (mediumBucket candidates) d.medium ++
  takeQuota (hardBucket candidates) d.hard

def enforce_difficulty_ratio (candidates : List Candidate) (total_needed : ℕ) :
    List Candidate :=
  let selected := selectedInit candidates total_needed
  let selected :=
    if selected.length < total_needed then
      let remaining := (easyBucket candidates ++ mediumBucket candidates ++
        hardBucket candidates).filter (fun r => decide (r ∉ selected))
      selected ++ remaining.take (total_needed - selected.length)
    else selected
  selected.take total_needed

/-! ## `_balance_difficulty` (question_generator.py) -/

def balance_difficulty (questions : List Candidate) (max_count : ℕ) : List Candidate :=
  let easy := questions.filter (fun q => q.difficulty = some "easy")
  let medium := questions.filter (fun q => q.difficulty = some "medium")
  let hard := questions.filter (fun q => q.difficulty = some "hard")
  let balanced := easy.take (max_count * 3 / 10) ++ medium.take (max_count * 4 / 10) ++
    hard.take (max_count * 3 / 10)
  let balanced :=
    if balanced.length < max_count then
      balanced ++ (questions.filter (fun q => decide (q ∉ balanced))).take
        (max_count - balanced.length)
    else balanced
  balanced.take max_count

/-! ## Semantic dedupe (`semantic_dedupe`, ai_pipeline.py)

The Embedding Service is a parameter `embed`; the source fetches one
embedding per question text (`get_embeddings_cached(texts)`), keeps the
embeddings of selected questions in `selected_embs`, and computes cosine
similarity as the dot product `e @ s_emb` of normalized vectors. -/

def dotQ : List ℚ → List ℚ → ℚ
  | [], _ => 0
  | _, [] => 0
  | a :: as, b :: bs => a * b + dotQ as bs

def semanticDedupeGo (embed : String → List ℚ) (threshold : ℚ) :
    List Candidate → List Candidate → List (List ℚ) → List Candidate
  | [], selected, _ => selected
  | q :: rest, selected, selectedEmbs =>
    let e := embed q.question_text
    if selectedEmbs.all (fun s => decide (dotQ e s < threshold)) then
      semanticDedupeGo embed threshold rest (selected ++ [q]) (selectedEmbs ++ [e])
    else
      semanticDedupeGo embed threshold rest selected selectedEmbs

def semantic_dedupe (embed : String → List ℚ) (questions : List Candidate)
    (threshold : ℚ) : List Candidate :=
  if questions = [] then [] else semanticDedupeGo embed threshold questions [] []

/-- Modelled from the spec's duplicate-gate sentence, for the refinement
theorem: iterate candidates in original order; keep a candidate only if its
cosine similarity to every previously-kept candidate's embedding is below
the duplicate threshold. -/
def specDedupeGo (embed : String → List ℚ) (threshold : ℚ) :
    List Candidate → List Candidate → List Candidate
  | [], kept => kept
  | q :: rest, kept =>
    if kept.all (fun u => decide (dotQ (embed q.question_text) (embed u.question_text) < threshold)) then
      specDedupeGo embed threshold rest (kept ++ [q])
    else
      specDedupeGo embed threshold rest kept

def specDedupe (embed : String → List ℚ) (questions : List Candidate)
    (threshold : ℚ) : List Candidate :=
  specDedupeGo embed threshold questions []

/-! ## MCQ correct-answer cascade
(`MCQQuestion.check_correct_answer_in_options`, question_generator.py) -/

/-- Which rule of the resolution cascade fired. The source logs a distinct
message at each step, so the step identity is observable behaviour. -/
inductive ResolveStep
  | exactMatch
  | caseMatch
  | partialMatch
  | punctMatch
  | fallback
deriving DecidableEq, Repr

/-- The `# Try case-insensitive match` loop. -/
def findCaseMatch (correct_lower : String) : List String → Option String
  | [] => none
  | opt :: rest =>
    if pyStrip (pyLower opt) = correct_lower then some opt
    else findCaseMatch correct_lower rest

/-- The `# Try partial match` loop. -/
def findPartialMatch (correct_lower : String) : List String → Option String
  | [] => none
  | opt :: rest =>
    let opt_clean := pyStrip (pyLower opt)
    if pySubstr correct_lower opt_clean || pySubstr opt_clean correct_lower then some opt
    else findPartialMatch correct_lower rest

/-- The `# Remove punctuation and try again` loop. -/
def findPunctMatch (correct_no_punct : String) : List String → Option String
  | [] => none
  | opt :: rest =>
    if removePunct (pyStrip (pyLower opt)) = correct_no_punct then some opt
    else findPunctMatch correct_no_punct rest

/-- `check_correct_answer_in_options`: the returned string is the value the
validator leaves in `correct_answer`; the second component reports which
cascade step fired (`none` when the `if not options or not correct_answer`
guard returned the values untouched). -/
def check_correct_answer_in_options (options : List String) (correct_answer : String) :
    String × Option ResolveStep :=
  if options = [] || correct_answer = "" then (correct_answer, none)
  else if options.contains correct_answer then (correct_answer, some ResolveStep.exactMatch)
  else
    let correct_lower := pyStrip (pyLower correct_answer)
    match findCaseMatch correct_lower options with
    | some opt => (opt, some ResolveStep.caseMatch)
    | none =>
      match findPartialMatch correct_lower options with
      | some opt => (opt, some ResolveStep.partialMatch)
      | none =>
        match findPunctMatch (removePunct correct_lower) options with
        | some opt => (opt, some ResolveStep.punctMatch)
        | none => (options.headD "", some ResolveStep.fallback)

/-- Modelled from the spec's §4.3 resolution-policy list, for the
refinement theorem: the five rules attempted in order, first match wins,
searching the options left to right within each rule. -/
def specResolve (options : List String) (correct_answer : String) :
    String × Option ResolveStep :=
  if options = [] || correct_answer = "" then (correct_answer, none)
  else if options.contains correct_answer then (correct_answer, some ResolveStep.exactMatch)
  else
    match options.find? (fun opt =>
        pyStrip (pyLower opt) = pyStrip (pyLower correct_answer)) with
    | some opt => (opt, some ResolveStep.caseMatch)
    | none =>
      match options.find? (fun opt =>
          pySubstr (pyStrip (pyLower correct_answer)) (pyStrip (pyLower opt)) ||
          pySubstr (pyStrip (pyLower opt)) (pyStrip (pyLower correct_answer))) with
      | some opt => (opt, some ResolveStep.partialMatch)
      | none =>
        match options.find? (fun opt =>
            removePunct (pyStrip (pyLower opt)) =
            removePunct (pyStrip (pyLower correct_answer))) with
        | some opt => (opt, some ResolveStep.punctMatch)
        | none => (options.headD "", some ResolveStep.fallback)

/-! ## Schema validator (`_validate_questions_robust`, question_generator.py)

A parsed candidate object.  The source iterates loosely-typed dicts; a
missing key and an explicit `None` both read back as `None` through
`dict.get`, and non-string values make the `.strip()` call raise inside the
per-item `try`, dropping the item — both are modelled by `none`. -/

structure RawItem where
  type : Option String
  question_text : Option String
  options : Option (List String)
  correct_answer : Option String
  answer_text : Option String
  difficulty : Option String
  max_score : Option Int
deriving DecidableEq, Repr

/-- `["A", "B", "C", "D"][i]`. -/
def letterOf (i : Nat) : String := ["A", "B", "C", "D"].getD i ""

/-- `options.index(correct_answer)` (first occurrence; the caller
guarantees membership). -/
def pyIndex (l : List String) (a : String) : Nat := l.findIdx (fun x => x = a)

/-- The in-loop answer fix of `_validate_questions_robust`: exact
membership, else first case-insensitive stripped match, else the first
option. -/
def robustFixAnswer (options : List String) (ca : String) : String :=
  if options.contains ca then ca
  else
    match options.find? (fun opt => pyStrip (pyLower opt) = pyStrip (pyLower ca)) with
    | some opt => opt
    | none => options.headD ""

def mcqRow (q_text : String) (options : List String) (ca : String)
    (item : RawItem) : Candidate :=
  { question_text := q_text,
    answer_text := some ca,
    difficulty := some (item.difficulty.getD "medium"),
    max_score := item.max_score.getD 1,
    option_a := some (options.getD 0 ""),
    option_b := some (options.getD 1 ""),
    option_c := some (options.getD 2 ""),
    option_d := some (options.getD 3 ""),
    correct_option := some (letterOf (pyIndex options ca)) }

def theoryRow (q_text : String) (ans : String) (item : RawItem) : Candidate :=
  { question_text := q_text,
    answer_text := some ans,
    difficulty := some (item.difficulty.getD "medium"),
    max_score := item.max_score.getD 3,
    option_a := none, option_b := none, option_c := none, option_d := none,
    correct_option := none }

/-- The per-item loop of `_validate_questions_robust` with its `seen` set of
lower-cased question texts.  Items of an unrecognised type fall through both
branches but still reach `seen.add`. -/
def validateGo : List RawItem → List String → List Candidate
  | [], _ => []
  | item :: rest, seen =>
    match item.type, item.question_text with
    | some ty, some qt =>
      let q_text := pyStrip qt
      if q_text = "" || seen.contains (pyLower q_text) then validateGo rest seen
      else if ty = "mcq" then
        let options := item.options.getD []
        if options.length = 4 then
          let ca := robustFixAnswer options (item.correct_answer.getD "")
          mcqRow q_text options ca item :: validateGo rest (seen ++ [pyLower q_text])
        else validateGo rest seen
      else if ty = "theory" then
        let ans := item.answer_text.getD ""
        if ans = "" then validateGo rest seen
        else theoryRow q_text ans item :: validateGo rest (seen ++ [pyLower q_text])
      else validateGo rest (seen ++ [pyLower q_text])
    | _, _ => validateGo rest seen

def validate_questions_robust (parsed : List RawItem) : List Candidate :=
  validateGo parsed []

/-! ## Persistence loop of `generate_questions_from_lesson` (ai_pipeline.py) -/

/-- A row of `ai.lesson_questions` as built by the save loop (without the
`lesson_id` key, which is carried separately in the endpoint model). -/
structure PersistedQuestion where
  question_text : String
  answer_text : Option String
  difficulty : Option String
  max_score : Int
  option_a : Option String
  option_b : Option String
  option_c : Option String
  option_d : Option String
  correct_option : Option String
deriving DecidableEq, Repr

def pyUpper (s : String) : String := String.mk (s.toList.map Char.toUpper)

/-- Python `x or default` for an optional string. -/
def pyOrStr (o : Option String) (d : String) : String :=
  match o with
  | some v => if v = "" then d else v
  | none => d

/-- The `if not ans:` recovery: look the answer up in `option_map` under
`correct_option.upper()` when `correct_option` is truthy, then
`ans = ans or "Not provided"`. -/
def saveAnsFallback (s : Candidate) (ans1 : Option String) : String :=
  let a2 : Option String :=
    match s.correct_option with
    | some c =>
      if c = "" then ans1
      else
        let u := pyUpper c
        if u = "A" then s.option_a
        else if u = "B" then s.option_b
        else if u = "C" then s.option_c
        else if u = "D" then s.option_d
        else none
    | none => ans1
  pyOrStr a2 "Not provided"

/-- `ans = (s.get("answer_text") or "").strip() if s.get("answer_text") else
None` followed by the `if not ans:` recovery. -/
def saveAns (s : Candidate) : String :=
  let ans1 : Option String :=
    match s.answer_text with
    | some a => if a = "" then none else some (pyStrip a)
    | none => none
  match ans1 with
  | some a => if a = "" then saveAnsFallback s ans1 else a
  | none => saveAnsFallback s ans1

/-- `if s.get(opt_key) is not None and not str(s[opt_key]).strip():
s[opt_key] = None`. -/
def cleanOpt : Option String → Option String
  | none => none
  | some v => if pyStrip v = "" then none else some v

/-- One `LessonQuestion(...)` built by the save loop.  In the formatted
dicts every key is present, so the `.get(..., default)` defaults for
`difficulty`/`max_score` are dead code; `none` models a present `None`. -/
def saveRowFrom (s : Candidate) (q_text : String) : PersistedQuestion :=
  let ans := saveAns s
  { question_text := q_text,
    answer_text := some ans,
    difficulty := s.difficulty,
    max_score := s.max_score,
    option_a := cleanOpt s.option_a,
    option_b := cleanOpt s.option_b,
    option_c := cleanOpt s.option_c,
    option_d := cleanOpt s.option_d,
    correct_option := s.correct_option }

/-- The `for s in selected:` save loop with its `seen_texts` set. -/
def saveLoop : List Candidate → List String → List PersistedQuestion
  | [], _ => []
  | s :: rest, seen =>
    let q_text := pyStrip s.question_text
    if q_text = "" || seen.contains (pyLower q_text) then saveLoop rest seen
    else saveRowFrom s q_text :: saveLoop rest (seen ++ [pyLower q_text])

/-! ## Pipeline composition for the short-lesson path -/

/-- `lesson_text[:n] + "..." if len(lesson_text) > n else lesson_text`
(slicing by code points, as Python does). -/
def pyTruncate (s : String) (n : Nat) : String :=
  if n < s.length then String.mk (s.toList.take n) ++ "..." else s

/-- `text = lesson_text.strip()` then `if not text.strip(): text = "No text
available for this lesson."`. -/
def pipelineText (lesson_text : String) : String :=
  let t := pyStrip lesson_text
  if pyStrip t = "" then "No text available for this lesson." else t

/-- The deterministic fallback candidate of `generate_questions_with_ai`. -/
def generateFallback (lesson_text : String) : Candidate :=
  { question_text := "Summarize the main concepts covered in this lesson.",
    answer_text := some (pyTruncate lesson_text 200),
    difficulty := some "medium",
    max_score := 3,
    option_a := none, option_b := none, option_c := none, option_d := none,
    correct_option := none }

/-- The fallback `LessonQuestion` inserted by `generate_questions_from_lesson`
when no candidates were produced at all. -/
def pipelineFallbackRow (text : String) : PersistedQuestion :=
  { question_text := "What is the main idea of this lesson?",
    answer_text := some (pyTruncate text 150),
    difficulty := some "medium",
    max_score := 1,
    option_a := none, option_b := none, option_c := none, option_d := none,
    correct_option := none }

/-- `generate_questions_multi_pass` with the semantic filter disabled (the
pipeline calls it with `enable_semantic_filter=False`); the three pass
outputs are parameters since they come from the generative oracle. -/
def generate_questions_multi_pass (p1 p2 p3 : List Candidate) (max_questions : ℕ) :
    List Candidate :=
  let all := p1 ++ p2 ++ p3
  if all = [] then all else balance_difficulty all max_questions

/-- `generate_questions_with_ai`: multi-pass generation plus the
deterministic single-question fallback on an empty yield. -/
def generate_questions_with_ai (p1 p2 p3 : List Candidate) (lesson_text : String)
    (max_questions : ℕ) : List Candidate :=
  let questions := generate_questions_multi_pass p1 p2 p3 max_questions
  if questions = [] then [generateFallback lesson_text] else questions

/-- The stages of `generate_questions_from_lesson` after candidate
generation: fallback insert on zero candidates, else global semantic dedupe
(threshold 0.85), difficulty selection with `total_needed =
min(total_max_questions, len(sem_filtered))`, and the save loop. -/
def pipelinePersist (embed : String → List ℚ) (text : String)
    (candidates : List Candidate) : List PersistedQuestion :=
  if candidates = [] then [pipelineFallbackRow text]
  else
    let sem_filtered := semantic_dedupe embed candidates (85/100)
    let total_needed := min 30 sem_filtered.length
    let selected := enforce_difficulty_ratio sem_filtered total_needed
    saveLoop selected []

/-- The short-lesson run (`word_count < 3000`): one
`generate_questions_with_ai` call with `max_questions=30` on the whole
text, then the persist stage.  Each pass is represented by its parsed
response items. -/
def pipelineFromParsed (embed : String → List ℚ) (lesson_text : String)
    (parsed1 parsed2 parsed3 : List RawItem) : List PersistedQuestion :=
  let text := pipelineText lesson_text
  let candidates := generate_questions_with_ai
    (validate_questions_robust parsed1) (validate_questions_robust parsed2)
    (validate_questions_robust parsed3) text 30
  pipelinePersist embed text candidates

/-! ## Endpoint replace semantics (`process_lesson_endpoint`, router.py)

Database state restricted to what the endpoint touches:
`academic.lesson_topics` ids, `ai.lesson_ai_results` rows `(id,
lesson_topic_id)`, `ai.lesson_questions` rows `(lesson_id, payload)`, and
the id sequence.  The payload type is abstract. -/

structure PipelineState (α : Type) where
  topics : List Nat
  results : List (Nat × Nat)
  questions : List (Nat × α)
  nextId : Nat
deriving Repr

/-- `SELECT id FROM ai.lesson_ai_results WHERE lesson_topic_id = :x`
(`fetchone`, first row). -/
def findExisting {α : Type} (s : PipelineState α) (topic : Nat) : Option Nat :=
  (s.results.find? (fun r => r.2 = topic)).map (fun r => r.1)

/-- One completed run of `process_lesson_endpoint` plus its background
task: verify the topic, delete the questions of the existing AI result (if
any), insert a fresh `lesson_ai_results` row, and insert the run's
generated questions under the fresh id.  `none` models the 404. -/
def process_lesson_endpoint {α : Type} (s : PipelineState α) (topic : Nat)
    (payload : List α) : Option (PipelineState α) :=
  if topic ∈ s.topics then
    let s1 :=
      match findExisting s topic with
      | some lid => { s with questions := s.questions.filter (fun q => decide (q.1 ≠ lid)) }
      | none => s
    let newId := s1.nextId
    some { s1 with
      results := s1.results ++ [(newId, topic)],
      questions := s1.questions ++ payload.map (fun p => (newId, p)),
      nextId := newId + 1 }
  else none

/-- The Persisted Questions live for a lesson identity: question rows whose
`lesson_id` joins to an AI result of that `lesson_topic_id`. -/
def liveQuestions {α : Type} (s : PipelineState α) (topic : Nat) : List α :=
  (s.questions.filter (fun q => s.results.any (fun r => r.1 = q.1 && r.2 = topic))).map
    (fun q => q.2)

/-- Reachable-state invariant: the id sequence dominates every stored id. -/
def StateWF {α : Type} (s : PipelineState α) : Prop :=
  (∀ r ∈ s.results, r.1 < s.nextId) ∧ (∀ q ∈ s.questions, q.1 < s.nextId)

/-! ## Python values and JSON decoding

`_extract_json_robust` receives `Any`.  `PyVal` covers the values that can
occur: strings, JSON numbers (ints and floats), booleans, null, lists and
dicts.  `json.loads` is modelled by an executable recursive-descent parser
over the full JSON number grammar plus CPython's `Infinity`, `-Infinity`
and `NaN` constants. -/

/-- A Python float parsed from JSON, kept as its exact decimal value:
`finite m e` denotes `m * 10 ^ e`.  CPython converts the literal to a
binary double (rounding it, and overflowing to `inf` near `1e309`); no
claim observes a float's value — only that the value IS a float — so the
exact-decimal reading is kept. -/
inductive PyFloat where
  | finite (mant : Int) (exp10 : Int)
  | inf
  | negInf
  | nan
deriving Repr, DecidableEq

inductive PyVal where
  | str (s : String)
  | num (n : Int)
  | float (f : PyFloat)
  | bool (b : Bool)
  | null
  | list (items : List PyVal)
  | dict (kvs : List (String × PyVal))
deriving Repr

inductive PyErr where
  | typeError
deriving DecidableEq, Repr

/-- Python `len` — defined on sized values, `TypeError` (`none`) otherwise. -/
def pyLen : PyVal → Option Nat
  | .str s => some s.length
  | .list l => some l.length
  | .dict kvs => some kvs.length
  | _ => none

/-- Dict lookup (the parser overwrites duplicate keys, so first match). -/
def lookupKey (kvs : List (String × PyVal)) (k : String) : Option PyVal :=
  (kvs.find? (fun kv => kv.1 = k)).map (fun kv => kv.2)

/-- Insert with overwrite, as repeated JSON object keys behave in Python. -/
def insertKey : List (String × PyVal) → String → PyVal → List (String × PyVal)
  | [], k, v => [(k, v)]
  | (k', v') :: rest, k, v =>
    if k' = k then (k', v) :: rest else (k', v') :: insertKey rest k v

/-- `str(raw)` for the non-container values that reach the string branch.
A float renders as mantissa-exponent text rather than CPython's
shortest-roundtrip decimal; any rendering of a float (no quotes, brackets
or braces) makes the string branch behave identically — the parse yields
no list or dict and no regex pattern matches, so the extractor degrades
the same way. -/
def pyStr : PyVal → String
  | .str s => s
  | .num n => toString n
  | .float (.finite m e) => toString m ++ "e" ++ toString e
  | .float .inf => "inf"
  | .float .negInf => "-inf"
  | .float .nan => "nan"
  | .bool b => if b then "True" else "False"
  | .null => "None"
  | .list _ => ""
  | .dict _ => ""

def lbrace : Char := Char.ofNat 123

def rbrace : Char := Char.ofNat 125

def isJsonWs (c : Char) : Bool := c = ' ' || c = '\t' || c = '\n' || c = '\r'

def jsonWsDrop (l : List Char) : List Char := l.dropWhile isJsonWs

def isDigitChar (c : Char) : Bool := 48 ≤ c.toNat && c.toNat ≤ 57

def digitsToNat (l : List Char) : Nat :=
  l.foldl (fun a c => a * 10 + (c.toNat - 48)) 0

def hexVal (c : Char) : Option Nat :=
  if 48 ≤ c.toNat && c.toNat ≤ 57 then some (c.toNat - 48)
  else if 97 ≤ c.toNat && c.toNat ≤ 102 then some (c.toNat - 87)
  else if 65 ≤ c.toNat && c.toNat ≤ 70 then some (c.toNat - 55)
  else none

/-- The float a JSON literal denotes: optional minus, integer digits `ds`,
fraction digits `fs`, optional exponent sign and digits `es`. -/
def jsonFloat (neg : Bool) (ds fs : List Char) (eneg : Bool) (es : List Char) : PyFloat :=
  .finite
    (if neg then -(digitsToNat (ds ++ fs) : Int) else (digitsToNat (ds ++ fs) : Int))
    ((if eneg then -(digitsToNat es : Int) else (digitsToNat es : Int)) - fs.length)

/-- Exponent digits after `e`/`E` and an optional sign: at least one digit
is required, and the result is always a float. -/
def parseJExpDigits (neg : Bool) (ds fs : List Char) (eneg : Bool) (r : List Char) :
    Option (PyVal × List Char) :=
  match r.span isDigitChar with
  | ([], _) => none
  | (es, r2) => some (.float (jsonFloat neg ds fs eneg es), r2)

/-- The exponent part after `e`/`E`: optional `+`/`-`, then digits. -/
def parseJExp (neg : Bool) (ds fs : List Char) (r : List Char) : Option (PyVal × List Char) :=
  match r with
  | '+' :: r2 => parseJExpDigits neg ds fs false r2
  | '-' :: r2 => parseJExpDigits neg ds fs true r2
  | _ => parseJExpDigits neg ds fs false r

/-- A JSON number after the optional leading minus (already consumed):
`int frac? exp?` with no leading zero in `int`; a literal without fraction
and exponent is a Python `int`, any other form a `float`. -/
def parseJNum (neg : Bool) (l : List Char) : Option (PyVal × List Char) :=
  match l.span isDigitChar with
  | ([], _) => none
  | (ds, r) =>
    if 1 < ds.length ∧ ds.head? = some '0' then none
    else
      match r with
      | '.' :: r2 =>
        (match r2.span isDigitChar with
         | ([], _) => none
         | (fs, r3) =>
           match r3 with
           | e :: r4 =>
             if e = 'e' || e = 'E' then parseJExp neg ds fs r4
             else some (.float (jsonFloat neg ds fs false []), r3)
           | [] => some (.float (jsonFloat neg ds fs false []), r3))
      | e :: r2 =>
        if e = 'e' || e = 'E' then parseJExp neg ds [] r2
        else some (.num (if neg then -(digitsToNat ds : Int) else (digitsToNat ds : Int)), r)
      | [] => some (.num (if neg then -(digitsToNat ds : Int) else (digitsToNat ds : Int)), r)

/-- JSON string body after the opening quote: content and rest. -/
def parseJStringGo : Nat → List Char → Option (List Char × List Char)
  | 0, _ => none
  | _+1, [] => none
  | fuel+1, c :: rest =>
    if c = '"' then some ([], rest)
    else if c = '\\' then
      match rest with
      | [] => none
      | e :: rest2 =>
        let simpleEsc : Option Char :=
          if e = '"' then some '"'
          else if e = '\\' then some '\\'
          else if e = '/' then some '/'
          else if e = 'n' then some '\n'
          else if e = 't' then some '\t'
          else if e = 'r' then some '\r'
          else if e = 'b' then some (Char.ofNat 8)
          else if e = 'f' then some (Char.ofNat 12)
          else none
        match simpleEsc with
        | some d =>
          match parseJStringGo fuel rest2 with
          | some (cs, r) => some (d :: cs, r)
          | none => none
        | none =>
          if e = 'u' then
            match rest2 with
            | h1 :: h2 :: h3 :: h4 :: rest3 =>
              match hexVal h1, hexVal h2, hexVal h3, hexVal h4 with
              | some a, some b, some c2, some d2 =>
                match parseJStringGo fuel rest3 with
                | some (cs, r) =>
                  some (Char.ofNat (((a * 16 + b) * 16 + c2) * 16 + d2) :: cs, r)
                | none => none
              | _, _, _, _ => none
            | _ => none
          else none
    else if c.toNat < 32 then none
    else
      match parseJStringGo fuel rest with
      | some (cs, r) => some (c :: cs, r)
      | none => none

mutual

/-- One JSON value, leading whitespace allowed; numbers follow the JSON
grammar, and CPython's `Infinity`, `-Infinity` and `NaN` are accepted. -/
def parseJVal : Nat → List Char → Option (PyVal × List Char)
  | 0, _ => none
  | fuel+1, l =>
    match jsonWsDrop l with
    | [] => none
    | c :: rest =>
      if c = '"' then
        match parseJStringGo (fuel+1) rest with
        | some (cs, r) => some (.str (String.mk cs), r)
        | none => none
      else if c = '[' then parseJArr fuel rest
      else if c = lbrace then parseJObj fuel rest
      else if c = 't' then
        if "rue".toList.isPrefixOf rest then some (.bool true, rest.drop 3) else none
      else if c = 'f' then
        if "alse".toList.isPrefixOf rest then some (.bool false, rest.drop 4) else none
      else if c = 'n' then
        if "ull".toList.isPrefixOf rest then some (.null, rest.drop 3) else none
      else if c = '-' then
        if "Infinity".toList.isPrefixOf rest then some (.float .negInf, rest.drop 8)
        else parseJNum true rest
      else if isDigitChar c then parseJNum false (c :: rest)
      else if c = 'I' then
        if "nfinity".toList.isPrefixOf rest then some (.float .inf, rest.drop 7)
        else none
      else if c = 'N' then
        if "aN".toList.isPrefixOf rest then some (.float .nan, rest.drop 2)
        else none
      else none

/-- Array elements after `[`. -/
def parseJArr : Nat → List Char → Option (PyVal × List Char)
  | 0, _ => none
  | fuel+1, l =>
    match jsonWsDrop l with
    | c :: rest =>
      if c = ']' then some (.list [], rest)
      else
        match parseJVal fuel l with
        | some (v, r) => parseJArrRest fuel [v] r
        | none => none
    | [] => none

/-- `, value`* then `]`, with accumulated elements. -/
def parseJArrRest : Nat → List PyVal → List Char → Option (PyVal × List Char)
  | 0, _, _ => none
  | fuel+1, acc, l =>
    match jsonWsDrop l with
    | c :: rest =>
      if c = ']' then some (.list acc.reverse, rest)
      else if c = ',' then
        match parseJVal fuel rest with
        | some (v, r) => parseJArrRest fuel (v :: acc) r
        | none => none
      else none
    | [] => none

/-- Object members after the opening brace. -/
def parseJObj : Nat → List Char → Option (PyVal × List Char)
  | 0, _ => none
  | fuel+1, l =>
    match jsonWsDrop l with
    | c :: rest =>
      if c = rbrace then some (.dict [], rest)
      else if c = '"' then
        match parseJStringGo (fuel+1) rest with
        | some (cs, r) => parseJObjVal fuel [] (String.mk cs) r
        | none => none
      else none
    | [] => none

/-- After a member key: `: value`, then delegate to the member loop. -/
def parseJObjVal : Nat → List (String × PyVal) → String → List Char →
    Option (PyVal × List Char)
  | 0, _, _, _ => none
  | fuel+1, acc, key, l =>
    match jsonWsDrop l with
    | c :: rest =>
      if c = ':' then
        match parseJVal fuel rest with
        | some (v, r) => parseJObjRest fuel (insertKey acc key v) r
        | none => none
      else none
    | [] => none

/-- `, "key": value`* then the closing brace. -/
def parseJObjRest : Nat → List (String × PyVal) → List Char →
    Option (PyVal × List Char)
  | 0, _, _ => none
  | fuel+1, acc, l =>
    match jsonWsDrop l with
    | c :: rest =>
      if c = rbrace then some (.dict acc, rest)
      else if c = ',' then
        match jsonWsDrop rest with
        | c2 :: rest2 =>
          if c2 = '"' then
            match parseJStringGo (fuel+1) rest2 with
            | some (cs, r) => parseJObjVal fuel acc (String.mk cs) r
            | none => none
          else none
        | [] => none
      else none
    | [] => none

end

/-- `json.loads`: parse one value and require only whitespace after it. -/
def jsonParse (s : String) : Option PyVal :=
  match parseJVal (s.length * 4 + 16) s.toList with
  | some (v, rest) => if jsonWsDrop rest = [] then some v else none
  | none => none

/-! ## A small backtracking regex engine

Exactly expressive enough for the three patterns in
`_extract_json_robust`, with Python `re` semantics: leftmost match,
alternatives tried left to right, `*?` lazy (fewest repetitions first),
`*` greedy, `re.DOTALL` so `.` matches everything.  Stars are fuelled; the
star bodies in all three patterns consume at least one character, so fuel
`length + 1` reproduces the unbounded search. -/

inductive RE where
  | lit (c : Char)
  | cls (p : Char → Bool)
  | seq (a b : RE)
  | alt (a b : RE)
  | starL (r : RE)
  | starG (r : RE)
  | eps

/-- CPS backtracking matcher, one fuel level: try the ways `r` can consume
a prefix of `s` in Python's preference order, pass the rest to `k`, return
the first success; a star defers to `next` for its repetitions. -/
def mrunGo (next : RE → List Char → (List Char → Option Nat) → Option Nat) :
    RE → List Char → (List Char → Option Nat) → Option Nat
  | .eps, s, k => k s
  | .lit _, [], _ => none
  | .lit c, x :: xs, k => if x = c then k xs else none
  | .cls _, [], _ => none
  | .cls p, x :: xs, k => if p x then k xs else none
  | .seq a b, s, k => mrunGo next a s (fun s2 => mrunGo next b s2 k)
  | .alt a b, s, k => (mrunGo next a s k).orElse (fun _ => mrunGo next b s k)
  | .starL r, s, k =>
    (k s).orElse (fun _ => next r s (fun s2 => next (.starL r) s2 k))
  | .starG r, s, k =>
    (next r s (fun s2 => next (.starG r) s2 k)).orElse (fun _ => k s)

/-- The fuelled matcher: each fuel level pays for one star unfolding. -/
def mrun : Nat → RE → List Char → (List Char → Option Nat) → Option Nat
  | 0 => mrunGo (fun _ _ _ => none)
  | fuel + 1 => mrunGo (mrun fuel)

/-- Length of the leftmost match starting exactly at `s`, if any. -/
def matchHere (r : RE) (s : List Char) : Option Nat :=
  (mrun (s.length + 1) r s (fun rest => some rest.length)).map
    (fun rem => s.length - rem)

/-- `re.findall` scanning: leftmost non-overlapping matches.  (The three
source patterns cannot match the empty string; an empty match advances one
character, as Python does.) -/
def findallGo (r : RE) : Nat → List Char → List String → List String
  | 0, _, acc => acc.reverse
  | fuel+1, s, acc =>
    match matchHere r s with
    | some 0 =>
      match s with
      | [] => acc.reverse
      | _ :: tail => findallGo r fuel tail acc
    | some consumed =>
      findallGo r fuel (s.drop consumed) (String.mk (s.take consumed) :: acc)
    | none =>
      match s with
      | [] => acc.reverse
      | _ :: tail => findallGo r fuel tail acc

def findall (r : RE) (s : String) : List String :=
  findallGo r (s.toList.length + 1) s.toList []

def reCat (l : List RE) : RE := l.foldr RE.seq RE.eps

def reStr (s : String) : RE := reCat (s.toList.map RE.lit)

def reWsStar : RE := RE.starG (RE.cls isPySpace)

def reAnyLazy : RE := RE.starL (RE.cls (fun _ => true))

def reNotBraceStar : RE := RE.starG (RE.cls (fun c => !(c = lbrace || c = rbrace)))

/-- `r'\[\s*\{.*?\}\s*(?:,\s*\{.*?\}\s*)*\]'` with `re.DOTALL`. -/
def arrayPattern : RE :=
  reCat [.lit '[', reWsStar, .lit lbrace, reAnyLazy, .lit rbrace, reWsStar,
    .starG (reCat [.lit ',', reWsStar, .lit lbrace, reAnyLazy, .lit rbrace, reWsStar]),
    .lit ']']

/-- `r'\{[^{}]*"questions"\s*:\s*\[.*?\][^{}]*\}'` with `re.DOTALL`. -/
def objPattern : RE :=
  reCat [.lit lbrace, reNotBraceStar, reStr "\"questions\"", reWsStar, .lit ':',
    reWsStar, .lit '[', reAnyLazy, .lit ']', reNotBraceStar, .lit rbrace]

/-- `r'\{[^{}]*"type"\s*:\s*"(?:mcq|theory)"[^{}]*\}'` with `re.DOTALL`. -/
def singleObjPattern : RE :=
  reCat [.lit lbrace, reNotBraceStar, reStr "\"type\"", reWsStar, .lit ':',
    reWsStar, .lit '"', .alt (reStr "mcq") (reStr "theory"), .lit '"',
    reNotBraceStar, .lit rbrace]

/-- `re.sub(lit + r'\s*', '', s)` for a literal prefix: scan left to right,
delete each occurrence of the literal together with the following
whitespace, continue after it. -/
def subLitWs (lit : List Char) : Nat → List Char → List Char
  | 0, s => s
  | _+1, [] => []
  | fuel+1, c :: rest =>
    if lit.isPrefixOf (c :: rest) then
      subLitWs lit fuel (((c :: rest).drop lit.length).dropWhile isPySpace)
    else c :: subLitWs lit fuel rest

/-- The two markdown-fence removals. -/
def cleanFences (s : String) : String :=
  let l1 := subLitWs "```json".toList (s.toList.length + 1) s.toList
  String.mk (subLitWs "```".toList (l1.length + 1) l1)

/-! ## The Response Extractor (`_extract_json_robust`) -/

/-- `questions` value extraction shared by the dict branches: Python
evaluates `len(...)` (for a debug log) before returning, so a non-sized
`questions` value raises `TypeError`. -/
def takeQuestions (q : PyVal) : Except PyErr PyVal :=
  match pyLen q with
  | some _ => .ok q
  | none => .error .typeError

/-- The `# Try to find JSON array` loop over `array_matches`. -/
def tryArrayMatches : List String → Option (List PyVal)
  | [] => none
  | m :: rest =>
    match jsonParse m with
    | some (.list l) => if 0 < l.length then some l else tryArrayMatches rest
    | _ => tryArrayMatches rest

/-- The `# Try to find object with questions key` loop over `obj_matches`.
(The pattern anchors on braces, so a successful parse is a dict.) -/
def tryObjMatches : List String → Option (Except PyErr PyVal)
  | [] => none
  | m :: rest =>
    match jsonParse m with
    | some (.dict kvs) =>
      match lookupKey kvs "questions" with
      | some q => some (takeQuestions q)
      | none => tryObjMatches rest
    | _ => tryObjMatches rest

/-- The last-resort loop over `single_matches`. -/
def trySingleMatches (ms : List String) : List PyVal :=
  ms.foldr (fun m acc =>
    match jsonParse m with
    | some p => p :: acc
    | none => acc) []

/-- The string branch of `_extract_json_robust`, on `str(raw)`. -/
def extractFromString (s0 : String) : Except PyErr PyVal :=
  let raw_str := cleanFences (pyStrip s0)
  match jsonParse raw_str with
  | some (.list l) => .ok (.list l)
  | some (.dict kvs) =>
    match lookupKey kvs "questions" with
    | some q => takeQuestions q
    | none => .ok (.list [.dict kvs])
  | _ =>
    match tryArrayMatches (findall arrayPattern raw_str) with
    | some l => .ok (.list l)
    | none =>
      match tryObjMatches (findall objPattern raw_str) with
      | some r => r
      | none =>
        let objs := trySingleMatches (findall singleObjPattern raw_str)
        if objs.isEmpty then .ok (.list []) else .ok (.list objs)

/-- `_extract_json_robust`.  The result is the Python return value; an
`error` is a raised exception. -/
def extract_json_robust : PyVal → Except PyErr PyVal
  | .list l => .ok (.list l)
  | .dict kvs =>
    (match lookupKey kvs "questions" with
     | some q => takeQuestions q
     | none => .ok (.list [.dict kvs]))
  | other => extractFromString (pyStr other)

/-- The hypothesis under which the extractor is exception-free and
list-valued: every `questions` key it can recover (in the input mapping,
in the direct parse, or in an object-pattern match) holds a list. -/
def qOkKvs (kvs : List (String × PyVal)) : Bool :=
  match lookupKey kvs "questions" with
  | some (.list _) => true
  | some _ => false
  | none => true

def questionsSafe : PyVal → Bool
  | .list _ => true
  | .dict kvs => qOkKvs kvs
  | other =>
    let raw_str := cleanFences (pyStrip (pyStr other))
    (match jsonParse raw_str with
     | some (.dict kvs) => qOkKvs kvs
     | _ => true) &&
    (findall objPattern raw_str).all (fun m =>
      match jsonParse m with
      | some (.dict kvs) => qOkKvs kvs
      | _ => true)

/-- The option slot a correct-option letter designates. -/
def optionSlot (l : String) (a b c d : Option String) : Option String :=
  if l = "A" then a else if l = "B" then b else if l = "C" then c
  else if l = "D" then d else none

def slotOfCand (c : Candidate) (l : String) : Option String :=
  optionSlot l c.option_a c.option_b c.option_c c.option_d

def slotOf (row : PersistedQuestion) (l : String) : Option String :=
  optionSlot l row.option_a row.option_b row.option_c row.option_d

/-! # Theorems -/

theorem find?_append_none {α : Type} (p : α → Bool) (l₁ l₂ : List α)
    (h : l₁.find? p = none) : (l₁ ++ l₂).find? p = l₂.find? p := by
  induction l₁ with
  | nil => rfl
  | cons x xs ih =>
    cases hpx : p x with
    | true => rw [List.find?_cons_of_pos _ hpx] at h; exact absurd h (by simp)
    | false =>
      have hpx' : ¬p x = true := by simp [hpx]
      rw [List.find?_cons_of_neg _ hpx'] at h
      rw [List.cons_append, List.find?_cons_of_neg _ hpx']
      exact ih h

/-- C1: running the pipeline a second time for the same lesson identity
(`lesson_topic_id`) deletes the prior generation's persisted questions
before the new set is inserted: starting from a well-formed state holding
no AI result for the topic, after two successive completed runs exactly the
second run's questions are live for that lesson identity (replace, not
merge; no accumulation). -/
theorem process_lesson_endpoint_replaces {α : Type} (s : PipelineState α)
    (t : Nat) (qs1 qs2 : List α)
    (hwf : StateWF s) (hfresh : ∀ r ∈ s.results, r.2 ≠ t) (ht : t ∈ s.topics) :
    ((process_lesson_endpoint s t qs1).bind
        (fun s1 => process_lesson_endpoint s1 t qs2)).map
      (fun s2 => liveQuestions s2 t) = some qs2 := by
  obtain ⟨hwr, hwq⟩ := hwf
  set n := s.nextId with hn
  have hfnone : s.results.find? (fun r => r.2 = t) = none :=
    List.find?_eq_none.mpr (fun r hr => by simpa using hfresh r hr)
  have hfind : findExisting s t = none := by
    unfold findExisting
    rw [hfnone]
    rfl
  have e1 : process_lesson_endpoint s t qs1 = some
      { topics := s.topics
        results := s.results ++ [(n, t)]
        questions := s.questions ++ qs1.map (fun p => (n, p))
        nextId := n + 1 } := by
    unfold process_lesson_endpoint
    rw [if_pos ht, hfind]
  have hfind2 : findExisting
      { topics := s.topics
        results := s.results ++ [(n, t)]
        questions := s.questions ++ qs1.map (fun p => (n, p))
        nextId := n + 1 : PipelineState α } t = some n := by
    unfold findExisting
    rw [find?_append_none _ _ _ hfnone]
    simp [List.find?]
  have hfilter : (s.questions ++ qs1.map (fun p => (n, p))).filter
      (fun q => decide (q.1 ≠ n)) = s.questions := by
    rw [List.filter_append]
    rw [List.filter_eq_self.mpr (fun q hq => by
      simpa using Nat.ne_of_lt (hwq q hq))]
    rw [List.filter_eq_nil_iff.mpr (fun q hq => by
      obtain ⟨p, _, rfl⟩ := List.mem_map.mp hq
      simp)]
    exact List.append_nil _
  have e2 : process_lesson_endpoint
      { topics := s.topics
        results := s.results ++ [(n, t)]
        questions := s.questions ++ qs1.map (fun p => (n, p))
        nextId := n + 1 : PipelineState α } t qs2 = some
      { topics := s.topics
        results := (s.results ++ [(n, t)]) ++ [(n + 1, t)]
        questions := s.questions ++ qs2.map (fun p => (n + 1, p))
        nextId := n + 1 + 1 } := by
    unfold process_lesson_endpoint
    rw [if_pos ht, hfind2]
    simp only [hfilter]
  have hanyfalse : ∀ q : Nat × α, q ∈ s.questions →
      (((s.results ++ [(n, t)]) ++ [(n + 1, t)]).any
        (fun r => r.1 = q.1 && r.2 = t)) = false := by
    intro q hq
    rw [Bool.eq_false_iff]
    intro hany
    obtain ⟨r, hr, hpr⟩ := List.any_eq_true.mp hany
    have hr12 : r.1 = q.1 ∧ r.2 = t := by simpa using hpr
    have hqlt : q.1 < n := hwq q hq
    rcases List.mem_append.mp hr with hr' | hr'
    · rcases List.mem_append.mp hr' with hr'' | hr''
      · exact hfresh r hr'' hr12.2
      · have : r = (n, t) := by simpa using hr''
        subst this
        exact absurd hr12.1 (by simp; omega)
    · have : r = (n + 1, t) := by simpa using hr'
      subst this
      exact absurd hr12.1 (by simp; omega)
  have hlive : ((s.questions ++ qs2.map (fun p => (n + 1, p))).filter
      (fun q => ((s.results ++ [(n, t)]) ++ [(n + 1, t)]).any
        (fun r => r.1 = q.1 && r.2 = t))).map (fun q => q.2) = qs2 := by
    rw [List.filter_append]
    rw [List.filter_eq_nil_iff.mpr (fun q hq => by rw [hanyfalse q hq]; simp)]
    rw [List.nil_append]
    rw [List.filter_eq_self.mpr (fun q hq => by
      obtain ⟨p, _, rfl⟩ := List.mem_map.mp hq
      simp [List.any_append])]
    rw [List.map_map]
    simp
  have hcomp : ((process_lesson_endpoint s t qs1).bind
      (fun s1 => process_lesson_endpoint s1 t qs2)) = some
      { topics := s.topics
        results := (s.results ++ [(n, t)]) ++ [(n + 1, t)]
        questions := s.questions ++ qs2.map (fun p => (n + 1, p))
        nextId := n + 1 + 1 } := by
    rw [e1]
    exact e2
  rw [hcomp]
  exact congrArg some hlive

/-- Witness for C1 at a concrete state: topic 7 exists, no prior AI result;
the first run persists one question, the second two; after the two runs
exactly the second run's payload is live. -/
theorem process_lesson_endpoint_replaces_witness :
    ((process_lesson_endpoint (⟨[7], [], [], 0⟩ : PipelineState String) 7 ["gen1-q"]).bind
        (fun s1 => process_lesson_endpoint s1 7 ["gen2-a", "gen2-b"])).map
      (fun s2 => liveQuestions s2 7) = some ["gen2-a", "gen2-b"] :=
  process_lesson_endpoint_replaces ⟨[7], [], [], 0⟩ 7 ["gen1-q"] ["gen2-a", "gen2-b"]
    ⟨by simp, by simp⟩ (by simp) (by simp)

theorem computeQuotas_eval (N : ℕ) (e m : ℤ)
    (he : pyRound ((N : ℚ) * (3/10)) = e) (hm : pyRound ((N : ℚ) * (4/10)) = m) :
    computeQuotas N = adjustQuotas N (((N : ℤ) - (e + m + e)).natAbs) 0 ⟨e, m, e⟩ := by
  unfold computeQuotas initialQuotas quotaSum
  rw [he, hm]

theorem computeQuotas_one : computeQuotas 1 = ⟨0, 1, 0⟩ := by
  rw [computeQuotas_eval 1 0 0 (by unfold pyRound; norm_num [Int.floor_eq_iff])
    (by unfold pyRound; norm_num [Int.floor_eq_iff])]
  decide

theorem computeQuotas_ten : computeQuotas 10 = ⟨3, 4, 3⟩ := by
  rw [computeQuotas_eval 10 3 4 (by unfold pyRound; norm_num) (by unfold pyRound; norm_num)]
  decide

theorem computeQuotas_thirty : computeQuotas 30 = ⟨9, 12, 9⟩ := by
  rw [computeQuotas_eval 30 9 12 (by unfold pyRound; norm_num) (by unfold pyRound; norm_num)]
  decide

/-- C10: a candidate whose difficulty is missing/null, or not one of
easy/medium/hard after lowercasing, lands in the medium bucket of
`enforce_difficulty_ratio` and is selected under the medium quota rather
than dropped (shown for the unit selection `total_needed = 1`, whose quota
is `{easy 0, medium 1, hard 0}`). -/
theorem unknown_difficulty_counts_as_medium (c : Candidate)
    (h : c.difficulty = none ∨ ∀ s, c.difficulty = some s →
      pyLower s ∉ (["easy", "medium", "hard"] : List String)) :
    bucketOf c = "medium" ∧ c ∈ mediumBucket [c] ∧
      enforce_difficulty_ratio [c] 1 = [c] := by
  have hb : bucketOf c = "medium" := by
    cases hd : c.difficulty with
    | none =>
      unfold bucketOf
      rw [hd]
      decide
    | some s =>
      rcases h with h | h
      · rw [hd] at h; exact absurd h (by simp)
      · have hs := h s hd
        simp only [List.mem_cons, List.not_mem_nil, not_or] at hs
        by_cases hse : s = ""
        · subst hse
          unfold bucketOf
          rw [hd]
          decide
        · simp only [bucketOf, hd, if_neg hse]
          rw [if_neg (by simp [hs.1, hs.2.1, hs.2.2.1])]
  refine ⟨hb, ?_, ?_⟩
  · unfold mediumBucket
    simp [hb]
  · unfold enforce_difficulty_ratio selectedInit easyBucket mediumBucket hardBucket
    rw [computeQuotas_one]
    simp [hb, takeQuota, pySliceTo]

/-- Witness for C10: a candidate whose difficulty reads `"UNKNOWN"` is
bucketed and selected as medium. -/
theorem unknown_difficulty_counts_as_medium_witness :
    bucketOf ⟨"q1", none, some "UNKNOWN", 1, none, none, none, none, none⟩ = "medium" ∧
    (⟨"q1", none, some "UNKNOWN", 1, none, none, none, none, none⟩ : Candidate) ∈
      mediumBucket [⟨"q1", none, some "UNKNOWN", 1, none, none, none, none, none⟩] ∧
    enforce_difficulty_ratio [⟨"q1", none, some "UNKNOWN", 1, none, none, none, none, none⟩] 1 =
      [⟨"q1", none, some "UNKNOWN", 1, none, none, none, none, none⟩] :=
  unknown_difficulty_counts_as_medium _ (Or.inr (by intro s hs; cases hs; decide))

theorem all_map_comp {α β : Type} (f : α → β) (p : β → Bool) (l : List α) :
    ((l.map f).all p) = l.all (fun x => p (f x)) := by
  induction l with
  | nil => rfl
  | cons a l ih => simp [ih]

theorem semanticDedupeGo_eq_spec (embed : String → List ℚ) (th : ℚ) :
    ∀ (qs sel : List Candidate),
      semanticDedupeGo embed th qs sel (sel.map (fun u => embed u.question_text)) =
      specDedupeGo embed th qs sel := by
  intro qs
  induction qs with
  | nil => intro sel; rfl
  | cons q rest ih =>
    intro sel
    simp only [semanticDedupeGo, specDedupeGo]
    rw [all_map_comp]
    by_cases hc : (sel.all fun u =>
        decide (dotQ (embed q.question_text) (embed u.question_text) < th)) = true
    · rw [if_pos hc, if_pos hc]
      rw [show sel.map (fun u => embed u.question_text) ++ [embed q.question_text] =
        (sel ++ [q]).map (fun u => embed u.question_text) by simp]
      exact ih (sel ++ [q])
    · rw [if_neg hc, if_neg hc]
      exact ih sel

/-- C8: the duplicate gate iterates candidates in original input order and
keeps a candidate iff its cosine similarity to every previously-kept
candidate's embedding is below the threshold (first part: the loop equals
the spec's greedy keep-iff-all-below formulation); for two candidates of
mutual similarity 0.95 against threshold 0.85, exactly the first is
kept. -/
theorem duplicate_gate_greedy :
    (∀ (embed : String → List ℚ) (threshold : ℚ) (qs : List Candidate),
      semantic_dedupe embed qs threshold = specDedupe embed qs threshold) ∧
    (∀ (a b : Candidate) (embed : String → List ℚ),
      dotQ (embed b.question_text) (embed a.question_text) = 95/100 →
      semantic_dedupe embed [a, b] (85/100) = [a]) := by
  constructor
  · intro embed th qs
    unfold semantic_dedupe specDedupe
    cases qs with
    | nil => rfl
    | cons q rest =>
      rw [if_neg (by simp)]
      exact semanticDedupeGo_eq_spec embed th (q :: rest) []
  · intro a b embed h
    unfold semantic_dedupe
    rw [if_neg (by simp)]
    simp only [semanticDedupeGo, List.all_nil, if_pos rfl, List.nil_append,
      List.all_cons, List.all_nil, Bool.and_true, h]
    norm_num

/-- Witness for C8: a concrete embedding giving the two candidates
similarity 0.95; the gate keeps exactly the first. -/
theorem duplicate_gate_greedy_witness :
    semantic_dedupe
      (fun s => if s = "first question" then [1, 0] else [19/20, 1])
      [⟨"first question", none, some "medium", 1, none, none, none, none, none⟩,
       ⟨"second question", none, some "medium", 1, none, none, none, none, none⟩]
      (85/100) =
      [⟨"first question", none, some "medium", 1, none, none, none, none, none⟩] :=
  duplicate_gate_greedy.2 _ _ _ (by norm_num [dotQ])

theorem findCaseMatch_eq_find? (cl : String) (opts : List String) :
    findCaseMatch cl opts = opts.find? (fun opt => pyStrip (pyLower opt) = cl) := by
  induction opts with
  | nil => rfl
  | cons o os ih =>
    by_cases h : pyStrip (pyLower o) = cl
    · rw [findCaseMatch, if_pos h, List.find?_cons]
      simp [h]
    · rw [findCaseMatch, if_neg h, ih, List.find?_cons]
      simp [h]

theorem findPartialMatch_eq_find? (cl : String) (opts : List String) :
    findPartialMatch cl opts = opts.find? (fun opt =>
      pySubstr cl (pyStrip (pyLower opt)) || pySubstr (pyStrip (pyLower opt)) cl) := by
  induction opts with
  | nil => rfl
  | cons o os ih =>
    by_cases h : (pySubstr cl (pyStrip (pyLower o)) ||
        pySubstr (pyStrip (pyLower o)) cl) = true
    · rw [findPartialMatch, if_pos (by simpa using h), List.find?_cons, h]
    · have h' : (pySubstr cl (pyStrip (pyLower o)) ||
          pySubstr (pyStrip (pyLower o)) cl) = false := by simpa using h
      rw [findPartialMatch, if_neg (by simp [h']), ih, List.find?_cons, h']

theorem findPunctMatch_eq_find? (cnp : String) (opts : List String) :
    findPunctMatch cnp opts = opts.find? (fun opt =>
      removePunct (pyStrip (pyLower opt)) = cnp) := by
  induction opts with
  | nil => rfl
  | cons o os ih =>
    by_cases h : removePunct (pyStrip (pyLower o)) = cnp
    · rw [findPunctMatch, if_pos h, List.find?_cons]
      simp [h]
    · rw [findPunctMatch, if_neg h, ih, List.find?_cons]
      simp [h]

/-- C3: the MCQ correct-answer cascade tries, in order with first match
winning, exact match, case-insensitive whitespace-trimmed match, substring
match in either direction, punctuation-stripped case-insensitive match, and
only then the first-option fallback (the validator's loops equal the spec's
ordered `find?` cascade); and `"paris "` against
`["Paris", "London", "Rome", "Berlin"]` resolves to `"Paris"` by the
case/whitespace rule, not the fallback. -/
theorem answer_cascade_order_and_example :
    (∀ (options : List String) (ans : String),
      check_correct_answer_in_options options ans = specResolve options ans) ∧
    check_correct_answer_in_options ["Paris", "London", "Rome", "Berlin"] "paris " =
      ("Paris", some ResolveStep.caseMatch) := by
  constructor
  · intro options ans
    simp only [check_correct_answer_in_options, specResolve,
      findCaseMatch_eq_find?, findPartialMatch_eq_find?, findPunctMatch_eq_find?]
  · decide

theorem pyRound_bounds (x : ℚ) :
    x - 1/2 ≤ (pyRound x : ℚ) ∧ (pyRound x : ℚ) ≤ x + 1/2 := by
  have h1 := Int.floor_le x
  have h2 := Int.lt_floor_add_one x
  simp only [pyRound]
  by_cases hlt : x - Int.floor x < 1/2
  · rw [if_pos hlt]
    constructor <;> linarith
  · rw [if_neg hlt]
    by_cases hgt : (1:ℚ)/2 < x - Int.floor x
    · rw [if_pos hgt]
      constructor <;> push_cast <;> linarith
    · rw [if_neg hgt]
      by_cases he : Even (Int.floor x : ℤ)
      · rw [if_pos he]
        constructor <;> linarith
      · rw [if_neg he]
        constructor <;> push_cast <;> linarith

theorem floor_le_pyRound (x : ℚ) : Int.floor x ≤ pyRound x := by
  simp only [pyRound]
  split
  · omega
  · split
    · omega
    · split <;> omega

theorem pyRound_nonneg (x : ℚ) (hx : 0 ≤ x) : 0 ≤ pyRound x :=
  le_trans (Int.floor_nonneg.mpr hx) (floor_le_pyRound x)

theorem quotaSum_bumpKey (d : Quotas) (i : ℕ) (s : ℤ) :
    quotaSum (bumpKey d i s) = quotaSum d + s := by
  unfold bumpKey quotaSum
  have h3 : i % 3 = 0 ∨ i % 3 = 1 ∨ i % 3 = 2 := by omega
  rcases h3 with h | h | h <;> rw [h] <;> ring

theorem adjustQuotas_sum : ∀ (fuel : ℕ) (total : ℤ) (i : ℕ) (d : Quotas),
    (total - quotaSum d).natAbs = fuel →
    quotaSum (adjustQuotas total fuel i d) = total := by
  intro fuel
  induction fuel with
  | zero =>
    intro total i d h
    simp only [adjustQuotas]
    omega
  | succ n ih =>
    intro total i d h
    simp only [adjustQuotas]
    by_cases hd : total - quotaSum d = 0
    · rw [if_pos hd]
      omega
    · rw [if_neg hd]
      apply ih
      rw [quotaSum_bumpKey]
      by_cases hpos : 0 < total - quotaSum d
      · rw [if_pos hpos]
        omega
      · rw [if_neg hpos]
        omega

/-- With at most one unit of remainder, the reconciliation loop only ever
touches the medium quota (the first key in `["medium", "easy", "hard"]`). -/
theorem adjustQuotas_easy_hard (total : ℤ) (fuel : ℕ) (d : Quotas)
    (hfuel : fuel ≤ 1) :
    (adjustQuotas total fuel 0 d).easy = d.easy ∧
    (adjustQuotas total fuel 0 d).hard = d.hard := by
  have h01 : fuel = 0 ∨ fuel = 1 := by omega
  rcases h01 with rfl | rfl
  · exact ⟨rfl, rfl⟩
  · simp only [adjustQuotas]
    by_cases hd : total - quotaSum d = 0
    · rw [if_pos hd]
      exact ⟨rfl, rfl⟩
    · rw [if_neg hd]
      constructor
      · rfl
      · rfl

theorem initial_diff_le_one (N : ℕ) :
    ((N : ℤ) - quotaSum (initialQuotas N)).natAbs ≤ 1 := by
  have h3 := pyRound_bounds ((N : ℚ) * (3/10))
  have h4 := pyRound_bounds ((N : ℚ) * (4/10))
  set e := pyRound ((N : ℚ) * (3/10)) with he
  set m := pyRound ((N : ℚ) * (4/10)) with hm
  have hsum : quotaSum (initialQuotas N) = e + m + e := rfl
  have hgt : (N : ℤ) - 2 < e + m + e := by
    have hq : (((N : ℤ) - 2 : ℤ) : ℚ) < ((e + m + e : ℤ) : ℚ) := by
      push_cast
      linarith [h3.1, h4.1]
    exact_mod_cast hq
  have hlt : e + m + e < (N : ℤ) + 2 := by
    have hq : ((e + m + e : ℤ) : ℚ) < (((N : ℤ) + 2 : ℤ) : ℚ) := by
      push_cast
      linarith [h3.2, h4.2]
    exact_mod_cast hq
  rw [hsum]
  omega

theorem computeQuotas_sum (N : ℕ) : quotaSum (computeQuotas N) = N :=
  adjustQuotas_sum _ _ _ _ rfl

theorem computeQuotas_easy_hard (N : ℕ) :
    (computeQuotas N).easy = (initialQuotas N).easy ∧
    (computeQuotas N).hard = (initialQuotas N).hard := by
  unfold computeQuotas
  exact adjustQuotas_easy_hard _ _ _ (initial_diff_le_one N)

theorem computeQuotas_zero : computeQuotas 0 = ⟨0, 0, 0⟩ := by
  rw [computeQuotas_eval 0 0 0 (by unfold pyRound; norm_num) (by unfold pyRound; norm_num)]
  decide

theorem computeQuotas_two : computeQuotas 2 = ⟨1, 0, 1⟩ := by
  rw [computeQuotas_eval 2 1 1 (by unfold pyRound; norm_num [Int.floor_eq_iff])
    (by unfold pyRound; norm_num [Int.floor_eq_iff])]
  decide

theorem computeQuotas_nonneg (N : ℕ) :
    0 ≤ (computeQuotas N).easy ∧ 0 ≤ (computeQuotas N).medium ∧
    0 ≤ (computeQuotas N).hard := by
  obtain ⟨heasy, hhard⟩ := computeQuotas_easy_hard N
  have hsum := computeQuotas_sum N
  unfold quotaSum at hsum
  have he0 : 0 ≤ pyRound ((N : ℚ) * (3/10)) := pyRound_nonneg _ (by positivity)
  have h1 : (computeQuotas N).easy = pyRound ((N : ℚ) * (3/10)) := heasy
  have h2 : (computeQuotas N).hard = pyRound ((N : ℚ) * (3/10)) := hhard
  refine ⟨by omega, ?_, by omega⟩
  by_cases hN : N ≤ 2
  · have h0 : N = 0 ∨ N = 1 ∨ N = 2 := by omega
    rcases h0 with rfl | rfl | rfl
    · rw [computeQuotas_zero] <;> decide
    · rw [computeQuotas_one] <;> decide
    · rw [computeQuotas_two] <;> decide
  · have hub := (pyRound_bounds ((N : ℚ) * (3/10))).2
    have hmpos : (0 : ℤ) < (N : ℤ) - 2 * pyRound ((N : ℚ) * (3/10)) := by
      have hq : ((0 : ℤ) : ℚ) < (((N : ℤ) - 2 * pyRound ((N : ℚ) * (3/10)) : ℤ) : ℚ) := by
        push_cast
        have hN3 : (3 : ℚ) ≤ (N : ℚ) := by exact_mod_cast (by omega : 3 ≤ N)
        linarith
      exact_mod_cast hq
    omega

theorem takeQuota_toNat (l : List Candidate) (q : ℤ) (h0 : 0 ≤ q) :
    takeQuota l q = l.take q.toNat := by
  unfold takeQuota pySliceTo
  have hmin0 : 0 ≤ min (l.length : ℤ) q := by omega
  rw [if_pos hmin0]
  by_cases hle : q.toNat ≤ l.length
  · have h1 : (min (l.length : ℤ) q).toNat = q.toNat := by omega
    rw [h1]
  · have h1 : (min (l.length : ℤ) q).toNat = l.length := by omega
    rw [h1, List.take_length, List.take_of_length_le (by omega)]

theorem filter_bucket_take_self (cs : List Candidate) (k : String) (n : ℕ) :
    ((cs.filter (fun c => bucketOf c = k)).take n).filter (fun c => bucketOf c = k) =
    (cs.filter (fun c => bucketOf c = k)).take n := by
  apply List.filter_eq_self.mpr
  intro c hc
  have hmem : c ∈ cs.filter (fun c => bucketOf c = k) :=
    (List.take_prefix _ _).subset hc
  exact (List.mem_filter.mp hmem).2

theorem filter_bucket_take_other (cs : List Candidate) (k k' : String) (n : ℕ)
    (hkk : k ≠ k') :
    ((cs.filter (fun c => bucketOf c = k)).take n).filter
      (fun c => bucketOf c = k') = [] := by
  apply List.filter_eq_nil_iff.mpr
  intro c hc
  have hmem : c ∈ cs.filter (fun c => bucketOf c = k) :=
    (List.take_prefix _ _).subset hc
  have h1 : bucketOf c = k := by simpa using (List.mem_filter.mp hmem).2
  simp [h1, hkk]

/-- C5: the quotas are reconciled to sum exactly to `N` with the remainder
absorbed by the medium bucket first (easy and hard keep their rounded
values); `N = 30` gives 9/12/9 and `N = 10` gives 3/4/3; and with at least
the quota available in every bucket, the `N = 30` output holds exactly 9
easy, 12 medium and 9 hard questions. -/
theorem difficulty_quota_exact :
    (∀ N : ℕ, quotaSum (computeQuotas N) = N ∧
      (computeQuotas N).easy = (initialQuotas N).easy ∧
      (computeQuotas N).hard = (initialQuotas N).hard) ∧
    computeQuotas 30 = ⟨9, 12, 9⟩ ∧
    computeQuotas 10 = ⟨3, 4, 3⟩ ∧
    ∀ cs : List Candidate,
      9 ≤ (easyBucket cs).length → 12 ≤ (mediumBucket cs).length →
      9 ≤ (hardBucket cs).length →
      ((enforce_difficulty_ratio cs 30).filter (fun c => bucketOf c = "easy")).length = 9 ∧
      ((enforce_difficulty_ratio cs 30).filter (fun c => bucketOf c = "medium")).length = 12 ∧
      ((enforce_difficulty_ratio cs 30).filter (fun c => bucketOf c = "hard")).length = 9 := by
  refine ⟨fun N => ⟨computeQuotas_sum N, computeQuotas_easy_hard N⟩,
    computeQuotas_thirty, computeQuotas_ten, ?_⟩
  intro cs h9 h12 h9'
  simp only [easyBucket] at h9
  simp only [mediumBucket] at h12
  simp only [hardBucket] at h9'
  have hsel : selectedInit cs 30 =
      (cs.filter (fun c => bucketOf c = "easy")).take 9 ++
      (cs.filter (fun c => bucketOf c = "medium")).take 12 ++
      (cs.filter (fun c => bucketOf c = "hard")).take 9 := by
    simp only [selectedInit, computeQuotas_thirty, easyBucket, mediumBucket, hardBucket]
    rw [takeQuota_toNat _ _ (by norm_num), takeQuota_toNat _ _ (by norm_num),
      takeQuota_toNat _ _ (by norm_num)]
    rfl
  have hlen : (selectedInit cs 30).length = 30 := by
    rw [hsel]
    simp only [List.length_append, List.length_take]
    omega
  have henf : enforce_difficulty_ratio cs 30 = selectedInit cs 30 := by
    simp only [enforce_difficulty_ratio]
    rw [if_neg (by omega)]
    exact List.take_of_length_le (le_of_eq hlen)
  rw [henf, hsel]
  refine ⟨?_, ?_, ?_⟩
  · simp only [List.filter_append, filter_bucket_take_self,
      filter_bucket_take_other cs "medium" "easy" _ (by decide),
      filter_bucket_take_other cs "hard" "easy" _ (by decide),
      List.length_append, List.length_take, List.length_nil]
    omega
  · simp only [List.filter_append, filter_bucket_take_self,
      filter_bucket_take_other cs "easy" "medium" _ (by decide),
      filter_bucket_take_other cs "hard" "medium" _ (by decide),
      List.length_append, List.length_take, List.length_nil]
    omega
  · simp only [List.filter_append, filter_bucket_take_self,
      filter_bucket_take_other cs "easy" "hard" _ (by decide),
      filter_bucket_take_other cs "medium" "hard" _ (by decide),
      List.length_append, List.length_take, List.length_nil]
    omega

/-- Witness for C5 at a concrete candidate list with 10 easy, 12 medium and
9 hard candidates: the selection holds exactly 9/12/9. -/
theorem difficulty_quota_exact_witness :
    ((enforce_difficulty_ratio
        (List.replicate 10 (⟨"e", none, some "easy", 1, none, none, none, none, none⟩ : Candidate) ++
         List.replicate 12 (⟨"m", none, some "medium", 1, none, none, none, none, none⟩ : Candidate) ++
         List.replicate 9 (⟨"h", none, some "hard", 1, none, none, none, none, none⟩ : Candidate)) 30).filter
      (fun c => bucketOf c = "easy")).length = 9 ∧
    ((enforce_difficulty_ratio
        (List.replicate 10 (⟨"e", none, some "easy", 1, none, none, none, none, none⟩ : Candidate) ++
         List.replicate 12 (⟨"m", none, some "medium", 1, none, none, none, none, none⟩ : Candidate) ++
         List.replicate 9 (⟨"h", none, some "hard", 1, none, none, none, none, none⟩ : Candidate)) 30).filter
      (fun c => bucketOf c = "medium")).length = 12 ∧
    ((enforce_difficulty_ratio
        (List.replicate 10 (⟨"e", none, some "easy", 1, none, none, none, none, none⟩ : Candidate) ++
         List.replicate 12 (⟨"m", none, some "medium", 1, none, none, none, none, none⟩ : Candidate) ++
         List.replicate 9 (⟨"h", none, some "hard", 1, none, none, none, none, none⟩ : Candidate)) 30).filter
      (fun c => bucketOf c = "hard")).length = 9 :=
  difficulty_quota_exact.2.2.2 _ (by decide) (by decide) (by decide)

theorem bucketOf_tri (c : Candidate) :
    bucketOf c = "easy" ∨ bucketOf c = "medium" ∨ bucketOf c = "hard" := by
  simp only [bucketOf]
  split
  next h =>
    simp only [Bool.or_eq_true, decide_eq_true_eq] at h
    rcases h with (h1 | h1) | h1 <;> simp [h1]
  next h => simp

theorem bucket_length_sum (cs : List Candidate) :
    (easyBucket cs).length + (mediumBucket cs).length + (hardBucket cs).length =
    cs.length := by
  unfold easyBucket mediumBucket hardBucket
  induction cs with
  | nil => rfl
  | cons c rest ih =>
    rcases bucketOf_tri c with h | h | h <;>
      simp only [List.filter_cons] <;>
      simp [h] <;> omega

theorem filter_not_mem_take {α : Type} [DecidableEq α] (l : List α) (n : ℕ)
    (h : l.Nodup) :
    l.filter (fun x => decide (x ∉ l.take n)) = l.drop n := by
  have hsplit : l.take n ++ l.drop n = l := List.take_append_drop n l
  have hnd2 : (l.take n ++ l.drop n).Nodup := by rw [hsplit]; exact h
  have hdisj : ∀ x ∈ l.drop n, x ∉ l.take n := by
    intro x hx hx'
    rcases List.nodup_append.mp hnd2 with ⟨_, _, hdis⟩
    exact hdis hx' hx
  calc l.filter (fun x => decide (x ∉ l.take n))
      = (l.take n ++ l.drop n).filter (fun x => decide (x ∉ l.take n)) := by rw [hsplit]
    _ = (l.take n).filter (fun x => decide (x ∉ l.take n)) ++
        (l.drop n).filter (fun x => decide (x ∉ l.take n)) := by
        rw [List.filter_append]
    _ = [] ++ l.drop n := by
        rw [List.filter_eq_nil_iff.mpr (fun x hx => by simp [hx]),
          List.filter_eq_self.mpr (fun x hx => by simp [hdisj x hx])]
    _ = l.drop n := List.nil_append _

theorem mem_bucket_take (cs : List Candidate) (k : String) (n : ℕ) (x : Candidate)
    (hx : x ∈ (cs.filter (fun c => bucketOf c = k)).take n) : bucketOf x = k := by
  have hmem : x ∈ cs.filter (fun c => bucketOf c = k) :=
    (List.take_prefix _ _).subset hx
  simpa using (List.mem_filter.mp hmem).2

/-- C6 (amended): on a candidate list without duplicate (structurally
equal) entries, `enforce_difficulty_ratio` returns exactly
`min N (number of candidates)` candidates — over-supply is cut to `N`,
under-supplied buckets are topped up from leftover candidates of any
bucket. -/
theorem enforce_ratio_length_of_nodup (cs : List Candidate) (N : ℕ)
    (hnd : cs.Nodup) :
    (enforce_difficulty_ratio cs N).length = min N cs.length := by
  obtain ⟨he0, hm0, hh0⟩ := computeQuotas_nonneg N
  have hsumq := computeQuotas_sum N
  unfold quotaSum at hsumq
  have hqN : (computeQuotas N).easy.toNat + (computeQuotas N).medium.toNat +
      (computeQuotas N).hard.toNat = N := by omega
  have hpart := bucket_length_sum cs
  have hsel : selectedInit cs N =
      (easyBucket cs).take (computeQuotas N).easy.toNat ++
      (mediumBucket cs).take (computeQuotas N).medium.toNat ++
      (hardBucket cs).take (computeQuotas N).hard.toNat := by
    simp only [selectedInit]
    rw [takeQuota_toNat _ _ he0, takeQuota_toNat _ _ hm0, takeQuota_toNat _ _ hh0]
  have hlen0 : (selectedInit cs N).length =
      min (computeQuotas N).easy.toNat (easyBucket cs).length +
      min (computeQuotas N).medium.toNat (mediumBucket cs).length +
      min (computeQuotas N).hard.toNat (hardBucket cs).length := by
    rw [hsel]
    simp only [List.length_append, List.length_take]
    all_goals omega
  have hmemsel : ∀ x : Candidate, x ∈ selectedInit cs N ↔
      x ∈ (easyBucket cs).take (computeQuotas N).easy.toNat ∨
      x ∈ (mediumBucket cs).take (computeQuotas N).medium.toNat ∨
      x ∈ (hardBucket cs).take (computeQuotas N).hard.toNat := by
    intro x
    rw [hsel]
    simp [List.mem_append, or_assoc]
  have hE : ∀ x : Candidate, x ∈ (easyBucket cs).take (computeQuotas N).easy.toNat →
      bucketOf x = "easy" := fun x => mem_bucket_take cs "easy" _ x
  have hM : ∀ x : Candidate, x ∈ (mediumBucket cs).take (computeQuotas N).medium.toNat →
      bucketOf x = "medium" := fun x => mem_bucket_take cs "medium" _ x
  have hH : ∀ x : Candidate, x ∈ (hardBucket cs).take (computeQuotas N).hard.toNat →
      bucketOf x = "hard" := fun x => mem_bucket_take cs "hard" _ x
  have hfE : (easyBucket cs).filter (fun x => decide (x ∉ selectedInit cs N)) =
      (easyBucket cs).drop (computeQuotas N).easy.toNat := by
    rw [List.filter_congr (fun x hx => ?_)]
    · exact filter_not_mem_take (easyBucket cs) _ (hnd.filter _)
    · have hbx : bucketOf x = "easy" := by simpa using (List.mem_filter.mp hx).2
      have hnm : x ∉ (mediumBucket cs).take (computeQuotas N).medium.toNat :=
        fun hc => by simp [hM x hc] at hbx
      have hnh : x ∉ (hardBucket cs).take (computeQuotas N).hard.toNat :=
        fun hc => by simp [hH x hc] at hbx
      by_cases hin : x ∈ (easyBucket cs).take (computeQuotas N).easy.toNat
      · simp [hmemsel, hin]
      · simp [hmemsel, hin, hnm, hnh]
  have hfM : (mediumBucket cs).filter (fun x => decide (x ∉ selectedInit cs N)) =
      (mediumBucket cs).drop (computeQuotas N).medium.toNat := by
    rw [List.filter_congr (fun x hx => ?_)]
    · exact filter_not_mem_take (mediumBucket cs) _ (hnd.filter _)
    · have hbx : bucketOf x = "medium" := by simpa using (List.mem_filter.mp hx).2
      have hne : x ∉ (easyBucket cs).take (computeQuotas N).easy.toNat :=
        fun hc => by simp [hE x hc] at hbx
      have hnh : x ∉ (hardBucket cs).take (computeQuotas N).hard.toNat :=
        fun hc => by simp [hH x hc] at hbx
      by_cases hin : x ∈ (mediumBucket cs).take (computeQuotas N).medium.toNat
      · simp [hmemsel, hin]
      · simp [hmemsel, hin, hne, hnh]
  have hfH : (hardBucket cs).filter (fun x => decide (x ∉ selectedInit cs N)) =
      (hardBucket cs).drop (computeQuotas N).hard.toNat := by
    rw [List.filter_congr (fun x hx => ?_)]
    · exact filter_not_mem_take (hardBucket cs) _ (hnd.filter _)
    · have hbx : bucketOf x = "hard" := by simpa using (List.mem_filter.mp hx).2
      have hne : x ∉ (easyBucket cs).take (computeQuotas N).easy.toNat :=
        fun hc => by simp [hE x hc] at hbx
      have hnm : x ∉ (mediumBucket cs).take (computeQuotas N).medium.toNat :=
        fun hc => by simp [hM x hc] at hbx
      by_cases hin : x ∈ (hardBucket cs).take (computeQuotas N).hard.toNat
      · simp [hmemsel, hin]
      · simp [hmemsel, hin, hne, hnm]
  have hrem : ((easyBucket cs ++ mediumBucket cs ++ hardBucket cs).filter
      (fun r => decide (r ∉ selectedInit cs N))).length =
      ((easyBucket cs).length - (computeQuotas N).easy.toNat) +
      ((mediumBucket cs).length - (computeQuotas N).medium.toNat) +
      ((hardBucket cs).length - (computeQuotas N).hard.toNat) := by
    rw [List.filter_append, List.filter_append, hfE, hfM, hfH]
    simp [List.length_drop]
    all_goals omega
  simp only [enforce_difficulty_ratio]
  by_cases hcase : (selectedInit cs N).length < N
  · rw [if_pos hcase]
    rw [List.length_take, List.length_append, List.length_take, hrem]
    omega
  · rw [if_neg hcase]
    rw [List.length_take]
    omega

/-- Witness for C6 at a concrete duplicate-free list: three candidates,
target 2, output length `min 2 3 = 2`. -/
theorem enforce_ratio_length_of_nodup_witness :
    (enforce_difficulty_ratio
      [⟨"a", none, some "easy", 1, none, none, none, none, none⟩,
       ⟨"b", none, some "medium", 1, none, none, none, none, none⟩,
       ⟨"c", none, some "hard", 1, none, none, none, none, none⟩] 2).length =
    min 2 ([⟨"a", none, some "easy", 1, none, none, none, none, none⟩,
       ⟨"b", none, some "medium", 1, none, none, none, none, none⟩,
       ⟨"c", none, some "hard", 1, none, none, none, none, none⟩] : List Candidate).length :=
  enforce_ratio_length_of_nodup _ 2 (by decide)

/-- Counterexample to C6 as stated: two structurally equal candidates and
`N = 2` yield a single selected question — the leftover copy is discarded
by the `r not in selected` top-up — so the output is shorter than
`min(N, number of candidates) = 2`. -/
theorem enforce_ratio_length_counterexample :
    (enforce_difficulty_ratio
      [⟨"dup", none, some "easy", 1, none, none, none, none, none⟩,
       ⟨"dup", none, some "easy", 1, none, none, none, none, none⟩] 2).length = 1 ∧
    min 2 ([⟨"dup", none, some "easy", 1, none, none, none, none, none⟩,
       ⟨"dup", none, some "easy", 1, none, none, none, none, none⟩] : List Candidate).length = 2 := by
  constructor
  · simp only [enforce_difficulty_ratio, selectedInit, computeQuotas_two]
    decide
  · decide

theorem head?_dropWhile_false (p : Char → Bool) (l : List Char) :
    ∀ c, (l.dropWhile p).head? = some c → p c = false := by
  induction l with
  | nil => intro c h; simp [List.dropWhile] at h
  | cons a l ih =>
    intro c h
    by_cases hp : p a = true
    · rw [List.dropWhile_cons_of_pos hp] at h
      exact ih c h
    · rw [List.dropWhile_cons_of_neg hp] at h
      simp only [List.head?_cons, Option.some.injEq] at h
      subst h
      simpa using hp

theorem prefix_head?_eq {α : Type} {x y : List α} (h : x <+: y) (hne : x ≠ []) :
    y.head? = x.head? := by
  obtain ⟨t, rfl⟩ := h
  cases x with
  | nil => exact absurd rfl hne
  | cons a l => rfl

theorem pyStripList_head (l : List Char) :
    ∀ c, (pyStripList l).head? = some c → isPySpace c = false := by
  intro c h
  have hpre : pyStripList l <+: l.dropWhile isPySpace :=
    List.rdropWhile_prefix _ _
  have hne : pyStripList l ≠ [] := by
    intro he
    rw [he] at h
    simp at h
  have heq := prefix_head?_eq hpre hne
  exact head?_dropWhile_false isPySpace l c (heq.trans h)

theorem getLast?_rdropWhile_false (p : Char → Bool) (m : List Char) :
    ∀ c, (m.rdropWhile p).getLast? = some c → p c = false := by
  intro c h
  rw [List.rdropWhile, List.getLast?_reverse] at h
  exact head?_dropWhile_false p m.reverse c h

theorem pyStripList_last (l : List Char) :
    ∀ c, (pyStripList l).getLast? = some c → isPySpace c = false := fun c h =>
  getLast?_rdropWhile_false isPySpace (l.dropWhile isPySpace) c h

theorem pyStripList_eq_self (l : List Char)
    (h1 : ∀ c, l.head? = some c → isPySpace c = false)
    (h2 : ∀ c, l.getLast? = some c → isPySpace c = false) :
    pyStripList l = l := by
  unfold pyStripList
  have hd : l.dropWhile isPySpace = l := by
    rw [List.dropWhile_eq_self_iff]
    intro hl
    have hh : l.head? = some (l.get ⟨0, hl⟩) := by
      cases l with
      | nil => simp at hl
      | cons a t => rfl
    have h0 := h1 _ hh
    rw [List.get_eq_getElem] at h0
    simp [h0]
  rw [hd, List.rdropWhile_eq_self_iff]
  intro hl
  have hh : l.getLast? = some (l.getLast hl) := List.getLast?_eq_getLast l hl
  simp [h2 _ hh]

theorem pyStrip_idem (s : String) : pyStrip (pyStrip s) = pyStrip s := by
  show String.mk (pyStripList (pyStripList s.toList)) = String.mk (pyStripList s.toList)
  congr 1
  exact pyStripList_eq_self _ (pyStripList_head s.toList) (pyStripList_last s.toList)

theorem pipelineText_stripped (s : String) :
    pyStrip (pipelineText s) = pipelineText s := by
  simp only [pipelineText]
  by_cases h : pyStrip (pyStrip s) = ""
  · rw [if_pos h]
    decide
  · rw [if_neg h]
    exact pyStrip_idem s

theorem pipelineText_ne_empty (s : String) : pipelineText s ≠ "" := by
  simp only [pipelineText]
  by_cases h : pyStrip (pyStrip s) = ""
  · rw [if_pos h]
    decide
  · rw [if_neg h]
    intro he
    exact h (by rw [he]; decide)

theorem pyStrip_truncate (t : String) (hst : pyStrip t = t) :
    pyStrip (pyTruncate t 200) = pyTruncate t 200 := by
  have htl : pyStripList t.toList = t.toList := by
    have := congrArg String.toList hst
    exact this
  unfold pyTruncate
  by_cases h : 200 < t.length
  · rw [if_pos h]
    have hlen : 200 < t.toList.length := h
    show String.mk (pyStripList (t.toList.take 200 ++ ['.', '.', '.'])) = _
    have hmk : (String.mk (t.toList.take 200) ++ ("..." : String)) =
        String.mk (t.toList.take 200 ++ ['.', '.', '.']) := rfl
    rw [hmk]
    congr 1
    apply pyStripList_eq_self
    · intro c hc
      cases htll : t.toList with
      | nil => rw [htll] at hlen; simp at hlen
      | cons a rest =>
        rw [htll] at hc
        have ha : (List.take 200 (a :: rest) ++ ['.', '.', '.']).head? = some a := rfl
        rw [ha] at hc
        simp only [Option.some.injEq] at hc
        subst hc
        apply pyStripList_head t.toList
        rw [htl, htll]
        rfl
    · intro c hc
      have : (t.toList.take 200 ++ ['.', '.', '.']) =
          (t.toList.take 200 ++ ['.', '.']) ++ ['.'] := by simp
      rw [this, List.getLast?_concat] at hc
      simp only [Option.some.injEq] at hc
      subst hc
      decide
  · rw [if_neg h]
    exact hst

theorem pyTruncate_ne_empty (t : String) (hne : t ≠ "") : pyTruncate t 200 ≠ "" := by
  unfold pyTruncate
  by_cases h : 200 < t.length
  · rw [if_pos h]
    intro he
    have : (String.mk (t.toList.take 200) ++ ("..." : String)).toList = [] :=
      congrArg String.toList he
    simp at this
  · rw [if_neg h]
    exact hne

theorem saveAns_generateFallback (t : String) (hst : pyStrip t = t) (hne : t ≠ "") :
    saveAns (generateFallback t) = pyTruncate t 200 := by
  have h1 : pyTruncate t 200 ≠ "" := pyTruncate_ne_empty t hne
  have h2 : pyStrip (pyTruncate t 200) = pyTruncate t 200 := pyStrip_truncate t hst
  show (let ans1 : Option String :=
      match (generateFallback t).answer_text with
      | some a => if a = "" then none else some (pyStrip a)
      | none => none
    match ans1 with
    | some a => if a = "" then saveAnsFallback (generateFallback t) ans1 else a
    | none => saveAnsFallback (generateFallback t) ans1) = pyTruncate t 200
  show (match (if pyTruncate t 200 = "" then (none : Option String)
        else some (pyStrip (pyTruncate t 200))) with
    | some a => if a = "" then saveAnsFallback (generateFallback t)
        (if pyTruncate t 200 = "" then none else some (pyStrip (pyTruncate t 200)))
      else a
    | none => saveAnsFallback (generateFallback t)
        (if pyTruncate t 200 = "" then none else some (pyStrip (pyTruncate t 200)))) =
    pyTruncate t 200
  rw [if_neg h1, h2]
  simp only []
  rw [if_neg h1]

/-- C7: when every generation pass yields nothing parseable, the pipeline
persists exactly one deterministic fallback question with difficulty
`"medium"`, whose answer text is non-null and equal to the (stripped)
lesson text truncated to 200 characters with an ellipsis — the downstream
consumer always receives at least one item. -/
theorem zero_yield_single_fallback (embed : String → List ℚ) (lesson_text : String) :
    pipelineFromParsed embed lesson_text [] [] [] =
      [{ question_text := "Summarize the main concepts covered in this lesson."
         answer_text := some (pyTruncate (pipelineText lesson_text) 200)
         difficulty := some "medium"
         max_score := 3
         option_a := none, option_b := none, option_c := none, option_d := none
         correct_option := none }] := by
  have hst : pyStrip (pipelineText lesson_text) = pipelineText lesson_text :=
    pipelineText_stripped lesson_text
  have hne : pipelineText lesson_text ≠ "" := pipelineText_ne_empty lesson_text
  have hans := saveAns_generateFallback _ hst hne
  show pipelinePersist embed (pipelineText lesson_text)
      (generate_questions_with_ai [] [] [] (pipelineText lesson_text) 30) = _
  have hgen : generate_questions_with_ai [] [] [] (pipelineText lesson_text) 30 =
      [generateFallback (pipelineText lesson_text)] := rfl
  rw [hgen]
  have hded : semantic_dedupe embed [generateFallback (pipelineText lesson_text)]
      (85/100) = [generateFallback (pipelineText lesson_text)] := by
    simp [semantic_dedupe, semanticDedupeGo]
  have hbuck : bucketOf (generateFallback (pipelineText lesson_text)) = "medium" := rfl
  have henf : enforce_difficulty_ratio [generateFallback (pipelineText lesson_text)] 1 =
      [generateFallback (pipelineText lesson_text)] := by
    simp only [enforce_difficulty_ratio, selectedInit, computeQuotas_one,
      easyBucket, mediumBucket, hardBucket]
    simp [hbuck, takeQuota, pySliceTo]
  show (if _ = ([] : List Candidate) then _ else _) = _
  rw [if_neg (by simp)]
  simp only [hded, List.length_cons, List.length_nil]
  have hmin : min 30 (0 + 1) = 1 := by norm_num
  rw [hmin, henf]
  have hproj : (generateFallback (pipelineText lesson_text)).question_text =
      "Summarize the main concepts covered in this lesson." := rfl
  simp only [saveLoop, hproj]
  rw [if_neg (by decide)]
  unfold saveRowFrom
  rw [hans]
  rfl

theorem semanticDedupeGo_subset (embed : String → List ℚ) (th : ℚ) :
    ∀ (qs sel : List Candidate) (embs : List (List ℚ)) (x : Candidate),
      x ∈ semanticDedupeGo embed th qs sel embs → x ∈ sel ∨ x ∈ qs := by
  intro qs
  induction qs with
  | nil => intro sel embs x hx; exact Or.inl hx
  | cons q rest ih =>
    intro sel embs x hx
    simp only [semanticDedupeGo] at hx
    by_cases hc : ((embs.all fun s =>
        decide (dotQ (embed q.question_text) s < th)) = true)
    · rw [if_pos hc] at hx
      rcases ih _ _ x hx with h | h
      · rcases List.mem_append.mp h with h' | h'
        · exact Or.inl h'
        · exact Or.inr (by simp at h'; simp [h'])
      · exact Or.inr (List.mem_cons_of_mem _ h)
    · rw [if_neg hc] at hx
      rcases ih _ _ x hx with h | h
      · exact Or.inl h
      · exact Or.inr (List.mem_cons_of_mem _ h)

theorem semantic_dedupe_subset (embed : String → List ℚ) (th : ℚ)
    (qs : List Candidate) (x : Candidate) (hx : x ∈ semantic_dedupe embed qs th) :
    x ∈ qs := by
  unfold semantic_dedupe at hx
  by_cases h : qs = []
  · rw [if_pos h] at hx; simp at hx
  · rw [if_neg h] at hx
    rcases semanticDedupeGo_subset embed th qs [] [] x hx with h' | h'
    · simp at h'
    · exact h'

theorem balance_difficulty_subset (qs : List Candidate) (n : ℕ) (x : Candidate)
    (hx : x ∈ balance_difficulty qs n) : x ∈ qs := by
  simp only [balance_difficulty] at hx
  have hmem0 : ∀ y : Candidate,
      y ∈ (qs.filter (fun q => q.difficulty = some "easy")).take (n * 3 / 10) ++
        (qs.filter (fun q => q.difficulty = some "medium")).take (n * 4 / 10) ++
        (qs.filter (fun q => q.difficulty = some "hard")).take (n * 3 / 10) → y ∈ qs := by
    intro y hy
    rcases List.mem_append.mp hy with hy' | hy'
    · rcases List.mem_append.mp hy' with hy'' | hy''
      · exact List.mem_of_mem_filter ((List.take_prefix _ _).subset hy'')
      · exact List.mem_of_mem_filter ((List.take_prefix _ _).subset hy'')
    · exact List.mem_of_mem_filter ((List.take_prefix _ _).subset hy')
  have hx' := (List.take_prefix _ _).subset hx
  split at hx'
  · rcases List.mem_append.mp hx' with h | h
    · exact hmem0 x h
    · exact List.mem_of_mem_filter ((List.take_prefix _ _).subset h)
  · exact hmem0 x hx'

theorem enforce_difficulty_ratio_subset (cs : List Candidate) (n : ℕ) (x : Candidate)
    (hx : x ∈ enforce_difficulty_ratio cs n) : x ∈ cs := by
  simp only [enforce_difficulty_ratio] at hx
  have hmem0 : ∀ y : Candidate, y ∈ selectedInit cs n → y ∈ cs := by
    intro y hy
    simp only [selectedInit] at hy
    have hq : ∀ (b : List Candidate) (q : ℤ), y ∈ takeQuota b q → y ∈ b := by
      intro b q hb
      unfold takeQuota pySliceTo at hb
      split at hb
      · exact (List.take_prefix _ _).subset hb
      · exact (List.take_prefix _ _).subset hb
    rcases List.mem_append.mp hy with hy' | hy'
    · rcases List.mem_append.mp hy' with hy'' | hy''
      · exact List.mem_of_mem_filter (hq _ _ hy'')
      · exact List.mem_of_mem_filter (hq _ _ hy'')
    · exact List.mem_of_mem_filter (hq _ _ hy')
  have hx' := (List.take_prefix _ _).subset hx
  split at hx'
  · rcases List.mem_append.mp hx' with h | h
    · exact hmem0 x h
    · have := (List.take_prefix _ _).subset h
      have hmem := List.mem_of_mem_filter this
      rcases List.mem_append.mp hmem with h' | h'
      · rcases List.mem_append.mp h' with h'' | h''
        · exact List.mem_of_mem_filter h''
        · exact List.mem_of_mem_filter h''
      · exact List.mem_of_mem_filter h'
  · exact hmem0 x hx'

theorem saveLoop_rows : ∀ (sel : List Candidate) (seen : List String)
    (row : PersistedQuestion), row ∈ saveLoop sel seen →
    ∃ s ∈ sel, row = saveRowFrom s (pyStrip s.question_text) := by
  intro sel
  induction sel with
  | nil => intro seen row h; simp [saveLoop] at h
  | cons s rest ih =>
    intro seen row h
    simp only [saveLoop] at h
    split at h
    · obtain ⟨s', hs', hrow⟩ := ih _ row h
      exact ⟨s', List.mem_cons_of_mem _ hs', hrow⟩
    · rcases List.mem_cons.mp h with h' | h'
      · exact ⟨s, List.mem_cons_self _ _, h'⟩
      · obtain ⟨s', hs', hrow⟩ := ih _ row h'
        exact ⟨s', List.mem_cons_of_mem _ hs', hrow⟩

theorem robustFixAnswer_mem (options : List String) (ca : String) (h : options ≠ []) :
    robustFixAnswer options ca ∈ options := by
  unfold robustFixAnswer
  by_cases hc : options.contains ca
  · rw [if_pos hc]
    simpa using hc
  · rw [if_neg hc]
    cases hf : options.find? (fun opt => pyStrip (pyLower opt) = pyStrip (pyLower ca)) with
    | some opt => exact List.mem_of_find?_eq_some hf
    | none =>
      cases options with
      | nil => exact absurd rfl h
      | cons a l => exact List.mem_cons_self _ _

theorem pyIndex_lt_length (l : List String) (a : String) (h : a ∈ l) :
    pyIndex l a < l.length := by
  unfold pyIndex
  apply List.findIdx_lt_length_of_exists
  exact ⟨a, h, by simp⟩

theorem getD_mem_of_lt : ∀ (l : List String) (i : ℕ), i < l.length → l.getD i "" ∈ l := by
  intro l
  induction l with
  | nil => intro i h; simp at h
  | cons a t ih =>
    intro i h
    cases i with
    | zero => simp [List.getD_cons_zero]
    | succ n =>
      rw [List.getD_cons_succ]
      exact List.mem_cons_of_mem _ (ih n (by simpa using h))

theorem mcqRow_slots (q_text : String) (options : List String) (ca : String)
    (item : RawItem) (hlen : options.length = 4) (hmem : ca ∈ options)
    (hopt : ∀ o ∈ options, pyStrip o ≠ "") :
    ∀ l, (mcqRow q_text options ca item).correct_option = some l →
      (l = "A" ∨ l = "B" ∨ l = "C" ∨ l = "D") ∧
      ∃ v, slotOfCand (mcqRow q_text options ca item) l = some v ∧ pyStrip v ≠ "" := by
  intro l hl
  have hlt : pyIndex options ca < 4 := by
    rw [← hlen]
    exact pyIndex_lt_length options ca hmem
  have hl' : l = letterOf (pyIndex options ca) := by
    have := hl
    simp only [mcqRow, Option.some.injEq] at this
    exact this.symm
  have h4 : pyIndex options ca = 0 ∨ pyIndex options ca = 1 ∨
      pyIndex options ca = 2 ∨ pyIndex options ca = 3 := by omega
  rcases h4 with h | h | h | h <;> rw [h] at hl' <;> subst hl'
  · exact ⟨Or.inl rfl, options.getD 0 "",
      by simp [mcqRow, slotOfCand, optionSlot, letterOf],
      hopt _ (getD_mem_of_lt options 0 (by omega))⟩
  · exact ⟨Or.inr (Or.inl rfl), options.getD 1 "",
      by simp [mcqRow, slotOfCand, optionSlot, letterOf],
      hopt _ (getD_mem_of_lt options 1 (by omega))⟩
  · exact ⟨Or.inr (Or.inr (Or.inl rfl)), options.getD 2 "",
      by simp [mcqRow, slotOfCand, optionSlot, letterOf],
      hopt _ (getD_mem_of_lt options 2 (by omega))⟩
  · exact ⟨Or.inr (Or.inr (Or.inr rfl)), options.getD 3 "",
      by simp [mcqRow, slotOfCand, optionSlot, letterOf],
      hopt _ (getD_mem_of_lt options 3 (by omega))⟩

theorem validateGo_correct_option (parsed : List RawItem) :
    ∀ (seen : List String) (c : Candidate), c ∈ validateGo parsed seen →
    (∀ item ∈ parsed, ∀ opts, item.options = some opts → ∀ o ∈ opts, pyStrip o ≠ "") →
    ∀ l, c.correct_option = some l →
      (l = "A" ∨ l = "B" ∨ l = "C" ∨ l = "D") ∧
      ∃ v, slotOfCand c l = some v ∧ pyStrip v ≠ "" := by
  induction parsed with
  | nil => intro seen c hc; simp [validateGo] at hc
  | cons item rest ih =>
    intro seen c hc hopts
    have hrest : ∀ it ∈ rest, ∀ opts, it.options = some opts →
        ∀ o ∈ opts, pyStrip o ≠ "" :=
      fun it hit => hopts it (List.mem_cons_of_mem _ hit)
    cases htyp : item.type with
    | none =>
      simp only [validateGo, htyp] at hc
      exact ih seen c hc hrest
    | some ty =>
      cases hqt : item.question_text with
      | none =>
        simp only [validateGo, htyp, hqt] at hc
        exact ih seen c hc hrest
      | some qt =>
        simp only [validateGo, htyp, hqt] at hc
        by_cases hskip : (pyStrip qt = "" || seen.contains (pyLower (pyStrip qt))) = true
        · rw [if_pos hskip] at hc
          exact ih seen c hc hrest
        · rw [if_neg hskip] at hc
          by_cases hmcq : ty = "mcq"
          · rw [if_pos hmcq] at hc
            by_cases hlen : (item.options.getD []).length = 4
            · rw [if_pos hlen] at hc
              rcases List.mem_cons.mp hc with hc' | hc'
              · subst hc'
                have hne : item.options.getD [] ≠ [] := by
                  intro h0
                  rw [h0] at hlen
                  simp at hlen
                have hoi : ∃ opts, item.options = some opts := by
                  cases ho : item.options with
                  | none => rw [ho] at hne; simp at hne
                  | some opts => exact ⟨opts, rfl⟩
                obtain ⟨opts, hoi⟩ := hoi
                have hgd : item.options.getD [] = opts := by rw [hoi]; rfl
                apply mcqRow_slots _ _ _ _ hlen
                · exact robustFixAnswer_mem _ _ hne
                · rw [hgd]
                  exact hopts item (List.mem_cons_self _ _) opts hoi
              · exact ih _ c hc' hrest
            · rw [if_neg hlen] at hc
              exact ih seen c hc hrest
          · rw [if_neg hmcq] at hc
            by_cases hth : ty = "theory"
            · rw [if_pos hth] at hc
              by_cases hans : item.answer_text.getD "" = ""
              · rw [if_pos hans] at hc
                exact ih seen c hc hrest
              · rw [if_neg hans] at hc
                rcases List.mem_cons.mp hc with hc' | hc'
                · subst hc'
                  intro l hl
                  simp [theoryRow] at hl
                · exact ih _ c hc' hrest
            · rw [if_neg hth] at hc
              exact ih _ c hc hrest

/-- C2 (amended): every persisted `multiple_choice` row (non-null
`correct_option`) carries a letter in A–D; and provided no option text of
any parsed MCQ item is whitespace-only, the designated option slot is
non-null in the persisted record.  (Without that proviso the save step's
empty-option cleaning can null the designated slot — see the
counterexample.) -/
theorem mcq_correct_option_slots (embed : String → List ℚ) (lesson_text : String)
    (parsed1 parsed2 parsed3 : List RawItem)
    (hopts : ∀ item ∈ parsed1 ++ parsed2 ++ parsed3, ∀ opts,
      item.options = some opts → ∀ o ∈ opts, pyStrip o ≠ "") :
    ∀ row ∈ pipelineFromParsed embed lesson_text parsed1 parsed2 parsed3,
    ∀ l, row.correct_option = some l →
      (l = "A" ∨ l = "B" ∨ l = "C" ∨ l = "D") ∧ slotOf row l ≠ none := by
  intro row hrow l hl
  have h1 : ∀ item ∈ parsed1, ∀ opts, item.options = some opts →
      ∀ o ∈ opts, pyStrip o ≠ "" := fun it hit => hopts it (by simp [hit])
  have h2 : ∀ item ∈ parsed2, ∀ opts, item.options = some opts →
      ∀ o ∈ opts, pyStrip o ≠ "" := fun it hit => hopts it (by simp [hit])
  have h3 : ∀ item ∈ parsed3, ∀ opts, item.options = some opts →
      ∀ o ∈ opts, pyStrip o ≠ "" := fun it hit => hopts it (by simp [hit])
  simp only [pipelineFromParsed, pipelinePersist] at hrow
  by_cases hempty : generate_questions_with_ai (validate_questions_robust parsed1)
      (validate_questions_robust parsed2) (validate_questions_robust parsed3)
      (pipelineText lesson_text) 30 = []
  · rw [if_pos hempty] at hrow
    have : row = pipelineFallbackRow (pipelineText lesson_text) := by simpa using hrow
    rw [this] at hl
    simp [pipelineFallbackRow] at hl
  · rw [if_neg hempty] at hrow
    obtain ⟨s, hs, hroweq⟩ := saveLoop_rows _ _ row hrow
    have hs1 := enforce_difficulty_ratio_subset _ _ s hs
    have hs2 := semantic_dedupe_subset _ _ _ s hs1
    have hprop : ∀ l', s.correct_option = some l' →
        (l' = "A" ∨ l' = "B" ∨ l' = "C" ∨ l' = "D") ∧
        ∃ v, slotOfCand s l' = some v ∧ pyStrip v ≠ "" := by
      simp only [generate_questions_with_ai] at hs2
      by_cases hmp : generate_questions_multi_pass (validate_questions_robust parsed1)
          (validate_questions_robust parsed2) (validate_questions_robust parsed3) 30 = []
      · rw [if_pos hmp] at hs2
        have hsf : s = generateFallback (pipelineText lesson_text) := by simpa using hs2
        intro l' hl'
        rw [hsf] at hl'
        simp [generateFallback] at hl'
      · rw [if_neg hmp] at hs2
        simp only [generate_questions_multi_pass] at hs2
        by_cases hall : validate_questions_robust parsed1 ++
            validate_questions_robust parsed2 ++ validate_questions_robust parsed3 = []
        · rw [if_pos hall] at hs2
          rw [hall] at hs2
          simp at hs2
        · rw [if_neg hall] at hs2
          have hs3 := balance_difficulty_subset _ _ s hs2
          rcases List.mem_append.mp hs3 with hs4 | hs4
          · rcases List.mem_append.mp hs4 with hs5 | hs5
            · exact validateGo_correct_option parsed1 [] s hs5 h1
            · exact validateGo_correct_option parsed2 [] s hs5 h2
          · exact validateGo_correct_option parsed3 [] s hs4 h3
    have hlc : s.correct_option = some l := by
      rw [hroweq] at hl
      exact hl
    obtain ⟨hlet, v, hv, hvne⟩ := hprop l hlc
    refine ⟨hlet, ?_⟩
    have hslot : slotOf row l = cleanOpt (slotOfCand s l) := by
      rw [hroweq]
      rcases hlet with rfl | rfl | rfl | rfl <;> rfl
    rw [hslot, hv]
    simp [cleanOpt, hvne]

/-- Counterexample to C2 as stated: an MCQ item whose first option is the
empty string and whose `correct_answer` is empty validates with
`correct_option = "A"`, but the save step nulls the whitespace-only
`option_a`, so the persisted record's `correct_option` designates a null
slot. -/
theorem mcq_slot_nulled_counterexample :
    pipelineFromParsed (fun _ => []) "lesson text"
      [⟨some "mcq", some "q", some ["", "b", "c", "d"], some "", none, none, none⟩] [] [] =
      [⟨"q", some "Not provided", some "medium", 1, none, some "b", some "c", some "d",
        some "A"⟩] ∧
    (⟨"q", some "Not provided", some "medium", 1, none, some "b", some "c", some "d",
      some "A"⟩ : PersistedQuestion).correct_option = some "A" ∧
    slotOf ⟨"q", some "Not provided", some "medium", 1, none, some "b", some "c", some "d",
      some "A"⟩ "A" = none := by
  refine ⟨?_, by decide, by decide⟩
  have hcand : generate_questions_with_ai
      (validate_questions_robust
        [⟨some "mcq", some "q", some ["", "b", "c", "d"], some "", none, none, none⟩])
      (validate_questions_robust []) (validate_questions_robust [])
      (pipelineText "lesson text") 30 =
      [⟨"q", some "", some "medium", 1, some "", some "b", some "c", some "d", some "A"⟩] := by
    decide
  simp only [pipelineFromParsed]
  rw [hcand]
  simp only [pipelinePersist]
  rw [if_neg (by decide)]
  have hded : semantic_dedupe (fun _ => [])
      [⟨"q", some "", some "medium", 1, some "", some "b", some "c", some "d", some "A"⟩]
      (85/100) =
      [⟨"q", some "", some "medium", 1, some "", some "b", some "c", some "d", some "A"⟩] := by
    simp [semantic_dedupe, semanticDedupeGo]
  rw [hded]
  have hmin : min 30 ([(⟨"q", some "", some "medium", 1, some "", some "b", some "c",
      some "d", some "A"⟩ : Candidate)]).length = 1 := by decide
  rw [hmin]
  have henf : enforce_difficulty_ratio
      [⟨"q", some "", some "medium", 1, some "", some "b", some "c", some "d", some "A"⟩]
      1 =
      [⟨"q", some "", some "medium", 1, some "", some "b", some "c", some "d", some "A"⟩] := by
    simp only [enforce_difficulty_ratio, selectedInit, computeQuotas_one,
      easyBucket, mediumBucket, hardBucket]
    decide
  rw [henf]
  decide

/-- Witness for C2 (amended) at a well-formed MCQ item: the persisted row's
`correct_option` is the letter A and its slot is non-null. -/
theorem mcq_correct_option_slots_witness :
    ("A" = "A" ∨ "A" = "B" ∨ "A" = "C" ∨ "A" = "D") ∧
    slotOf ⟨"What is 2+2?", some "4", some "medium", 1, some "4", some "3", some "2",
      some "1", some "A"⟩ "A" ≠ none := by
  have hcand : generate_questions_with_ai
      (validate_questions_robust
        [⟨some "mcq", some "What is 2+2?", some ["4", "3", "2", "1"], some "4",
          none, none, none⟩])
      (validate_questions_robust []) (validate_questions_robust [])
      (pipelineText "lesson") 30 =
      [⟨"What is 2+2?", some "4", some "medium", 1, some "4", some "3", some "2",
        some "1", some "A"⟩] := by
    decide
  have hded : semantic_dedupe (fun _ => [])
      [⟨"What is 2+2?", some "4", some "medium", 1, some "4", some "3", some "2",
        some "1", some "A"⟩] (85/100) =
      [⟨"What is 2+2?", some "4", some "medium", 1, some "4", some "3", some "2",
        some "1", some "A"⟩] := by
    simp [semantic_dedupe, semanticDedupeGo]
  have henf : enforce_difficulty_ratio
      [⟨"What is 2+2?", some "4", some "medium", 1, some "4", some "3", some "2",
        some "1", some "A"⟩] 1 =
      [⟨"What is 2+2?", some "4", some "medium", 1, some "4", some "3", some "2",
        some "1", some "A"⟩] := by
    simp only [enforce_difficulty_ratio, selectedInit, computeQuotas_one,
      easyBucket, mediumBucket, hardBucket]
    decide
  have hpipe : pipelineFromParsed (fun _ => []) "lesson"
      [⟨some "mcq", some "What is 2+2?", some ["4", "3", "2", "1"], some "4",
        none, none, none⟩] [] [] =
      [⟨"What is 2+2?", some "4", some "medium", 1, some "4", some "3", some "2",
        some "1", some "A"⟩] := by
    simp only [pipelineFromParsed]
    rw [hcand]
    simp only [pipelinePersist]
    rw [if_neg (by decide)]
    rw [hded]
    have hmin : min 30 ([(⟨"What is 2+2?", some "4", some "medium", 1, some "4", some "3",
        some "2", some "1", some "A"⟩ : Candidate)]).length = 1 := by decide
    rw [hmin, henf]
    decide
  exact mcq_correct_option_slots (fun _ => []) "lesson"
    [⟨some "mcq", some "What is 2+2?", some ["4", "3", "2", "1"], some "4",
      none, none, none⟩] [] [] (by decide)
    ⟨"What is 2+2?", some "4", some "medium", 1, some "4", some "3", some "2",
      some "1", some "A"⟩ (by rw [hpipe]; exact List.mem_cons_self _ _) "A" (by decide)

/-- A recoverable `questions` key that satisfies `qOkKvs` holds a list. -/
lemma qOkKvs_lookup (kvs : List (String × PyVal)) (h : qOkKvs kvs = true)
    (q : PyVal) (hq : lookupKey kvs "questions" = some q) :
    ∃ l, q = PyVal.list l := by
  unfold qOkKvs at h
  rw [hq] at h
  rcases q with s | n | f | b | _ | l | kvs2
  · simp at h
  · simp at h
  · simp at h
  · simp at h
  · simp at h
  · exact ⟨l, rfl⟩
  · simp at h

/-- Under the object-match safety hypothesis, the object-pattern loop can
only return an `ok` list (the `questions` value it extracts is a list, and
`len` succeeds on it). -/
lemma tryObjMatches_ok : ∀ ms : List String,
    ms.all (fun m => match jsonParse m with
      | some (.dict kvs) => qOkKvs kvs
      | _ => true) = true →
    ∀ r, tryObjMatches ms = some r → ∃ l, r = Except.ok (PyVal.list l) := by
  intro ms
  induction ms with
  | nil => intro _ r hr; simp [tryObjMatches] at hr
  | cons m rest ih =>
    intro h r hr
    rw [List.all_cons, Bool.and_eq_true] at h
    obtain ⟨h1, h2⟩ := h
    simp only [tryObjMatches] at hr
    rcases hjm : jsonParse m with _ | (s | n | f | b | _ | l | kvs)
    · simp only [hjm] at hr; exact ih h2 r hr
    · simp only [hjm] at hr; exact ih h2 r hr
    · simp only [hjm] at hr; exact ih h2 r hr
    · simp only [hjm] at hr; exact ih h2 r hr
    · simp only [hjm] at hr; exact ih h2 r hr
    · simp only [hjm] at hr; exact ih h2 r hr
    · simp only [hjm] at hr; exact ih h2 r hr
    · simp only [hjm] at hr h1
      rcases hlk : lookupKey kvs "questions" with _ | q
      · simp only [hlk] at hr; exact ih h2 r hr
      · simp only [hlk] at hr
        obtain ⟨l0, rfl⟩ := qOkKvs_lookup kvs h1 q hlk
        exact ⟨l0, (Option.some.inj hr).symm⟩

/-- The string branch of the extractor returns an `ok` list whenever the
input is `questionsSafe`. -/
lemma extractFromString_ok (s0 : String) (h : questionsSafe (PyVal.str s0) = true) :
    ∃ l, extractFromString s0 = Except.ok (PyVal.list l) := by
  simp only [questionsSafe, pyStr, Bool.and_eq_true] at h
  obtain ⟨h1, h2⟩ := h
  simp only [extractFromString]
  rcases hj : jsonParse (cleanFences (pyStrip s0)) with _ | (s | n | f | b | _ | l | kvs)
  · simp only [hj]
    rcases hta : tryArrayMatches (findall arrayPattern (cleanFences (pyStrip s0))) with _ | al
    · simp only [hta]
      rcases hto : tryObjMatches (findall objPattern (cleanFences (pyStrip s0))) with _ | r
      · simp only [hto]
        by_cases he : (trySingleMatches (findall singleObjPattern (cleanFences (pyStrip s0)))).isEmpty
        · exact ⟨[], by simp [he]⟩
        · exact ⟨trySingleMatches (findall singleObjPattern (cleanFences (pyStrip s0))),
            by simp [he]⟩
      · simp only [hto]
        obtain ⟨l0, rfl⟩ := tryObjMatches_ok (findall objPattern (cleanFences (pyStrip s0))) h2 r hto
        exact ⟨l0, rfl⟩
    · simp only [hta]
      exact ⟨al, rfl⟩
  · simp only [hj]
    rcases hta : tryArrayMatches (findall arrayPattern (cleanFences (pyStrip s0))) with _ | al
    · simp only [hta]
      rcases hto : tryObjMatches (findall objPattern (cleanFences (pyStrip s0))) with _ | r
      · simp only [hto]
        by_cases he : (trySingleMatches (findall singleObjPattern (cleanFences (pyStrip s0)))).isEmpty
        · exact ⟨[], by simp [he]⟩
        · exact ⟨trySingleMatches (findall singleObjPattern (cleanFences (pyStrip s0))),
            by simp [he]⟩
      · simp only [hto]
        obtain ⟨l0, rfl⟩ := tryObjMatches_ok (findall objPattern (cleanFences (pyStrip s0))) h2 r hto
        exact ⟨l0, rfl⟩
    · simp only [hta]
      exact ⟨al, rfl⟩
  · simp only [hj]
    rcases hta : tryArrayMatches (findall arrayPattern (cleanFences (pyStrip s0))) with _ | al
    · simp only [hta]
      rcases hto : tryObjMatches (findall objPattern (cleanFences (pyStrip s0))) with _ | r
      · simp only [hto]
        by_cases he : (trySingleMatches (findall singleObjPattern (cleanFences (pyStrip s0)))).isEmpty
        · exact ⟨[], by simp [he]⟩
        · exact ⟨trySingleMatches (findall singleObjPattern (cleanFences (pyStrip s0))),
            by simp [he]⟩
      · simp only [hto]
        obtain ⟨l0, rfl⟩ := tryObjMatches_ok (findall objPattern (cleanFences (pyStrip s0))) h2 r hto
        exact ⟨l0, rfl⟩
    · simp only [hta]
      exact ⟨al, rfl⟩
  · simp only [hj]
    rcases hta : tryArrayMatches (findall arrayPattern (cleanFences (pyStrip s0))) with _ | al
    · simp only [hta]
      rcases hto : tryObjMatches (findall objPattern (cleanFences (pyStrip s0))) with _ | r
      · simp only [hto]
        by_cases he : (trySingleMatches (findall singleObjPattern (cleanFences (pyStrip s0)))).isEmpty
        · exact ⟨[], by simp [he]⟩
        · exact ⟨trySingleMatches (findall singleObjPattern (cleanFences (pyStrip s0))),
            by simp [he]⟩
      · simp only [hto]
        obtain ⟨l0, rfl⟩ := tryObjMatches_ok (findall objPattern (cleanFences (pyStrip s0))) h2 r hto
        exact ⟨l0, rfl⟩
    · simp only [hta]
      exact ⟨al, rfl⟩
  · simp only [hj]
    rcases hta : tryArrayMatches (findall arrayPattern (cleanFences (pyStrip s0))) with _ | al
    · simp only [hta]
      rcases hto : tryObjMatches (findall objPattern (cleanFences (pyStrip s0))) with _ | r
      · simp only [hto]
        by_cases he : (trySingleMatches (findall singleObjPattern (cleanFences (pyStrip s0)))).isEmpty
        · exact ⟨[], by simp [he]⟩
        · exact ⟨trySingleMatches (findall singleObjPattern (cleanFences (pyStrip s0))),
            by simp [he]⟩
      · simp only [hto]
        obtain ⟨l0, rfl⟩ := tryObjMatches_ok (findall objPattern (cleanFences (pyStrip s0))) h2 r hto
        exact ⟨l0, rfl⟩
    · simp only [hta]
      exact ⟨al, rfl⟩
  · simp only [hj]
    rcases hta : tryArrayMatches (findall arrayPattern (cleanFences (pyStrip s0))) with _ | al
    · simp only [hta]
      rcases hto : tryObjMatches (findall objPattern (cleanFences (pyStrip s0))) with _ | r
      · simp only [hto]
        by_cases he : (trySingleMatches (findall singleObjPattern (cleanFences (pyStrip s0)))).isEmpty
        · exact ⟨[], by simp [he]⟩
        · exact ⟨trySingleMatches (findall singleObjPattern (cleanFences (pyStrip s0))),
            by simp [he]⟩
      · simp only [hto]
        obtain ⟨l0, rfl⟩ := tryObjMatches_ok (findall objPattern (cleanFences (pyStrip s0))) h2 r hto
        exact ⟨l0, rfl⟩
    · simp only [hta]
      exact ⟨al, rfl⟩
  · simp only [hj]
    exact ⟨l, rfl⟩
  · simp only [hj] at h1 ⊢
    rcases hlk : lookupKey kvs "questions" with _ | q
    · exact ⟨[PyVal.dict kvs], by simp [hlk]⟩
    · obtain ⟨l0, rfl⟩ := qOkKvs_lookup kvs h1 q hlk
      exact ⟨l0, by simp [hlk, takeQuestions, pyLen]⟩

/-- **C4 (amended).** For every input value all of whose recoverable
`questions` values are lists (`questionsSafe`), `_extract_json_robust`
returns a list and raises no exception.  The unamended claim is false: a
mapping (or a parsed object match) whose `questions` key holds a non-sized
value makes the logging call `len(...)` raise `TypeError`, which
propagates. -/
theorem extractor_total_list (v : PyVal) (h : questionsSafe v = true) :
    ∃ l, extract_json_robust v = Except.ok (PyVal.list l) := by
  rcases v with s | n | f | b | _ | l | kvs
  · exact extractFromString_ok s h
  · exact extractFromString_ok (pyStr (PyVal.num n)) h
  · exact extractFromString_ok (pyStr (PyVal.float f)) h
  · exact extractFromString_ok (pyStr (PyVal.bool b)) h
  · exact extractFromString_ok (pyStr PyVal.null) h
  · exact ⟨l, rfl⟩
  · simp only [questionsSafe] at h
    simp only [extract_json_robust]
    rcases hlk : lookupKey kvs "questions" with _ | q
    · exact ⟨[PyVal.dict kvs], by simp [hlk]⟩
    · obtain ⟨l0, rfl⟩ := qOkKvs_lookup kvs h q hlk
      exact ⟨l0, by simp [hlk, takeQuestions, pyLen]⟩

/-- Witness for C4 (amended): a mapping whose `questions` key holds a list
is safe, and the extractor returns that list. -/
theorem extractor_total_list_witness :
    questionsSafe (PyVal.dict [("questions", PyVal.list [PyVal.str "q"])]) = true ∧
    ∃ l, extract_json_robust (PyVal.dict [("questions", PyVal.list [PyVal.str "q"])]) =
      Except.ok (PyVal.list l) :=
  ⟨by decide, extractor_total_list (PyVal.dict [("questions", PyVal.list [PyVal.str "q"])])
    (by decide)⟩

/-- Counterexample to C4 as stated: on a mapping with a numeric
`questions` value — native, or arriving as the string `{"questions": 5.0}`
whose direct parse succeeds — the extractor raises `TypeError` (the debug
log calls `len` on the value) instead of returning a list; the float
string is accordingly not `questionsSafe`. -/
theorem extractor_raises_counterexample :
    extract_json_robust (PyVal.dict [("questions", PyVal.num 5)]) =
      Except.error PyErr.typeError ∧
    extract_json_robust (PyVal.str "\x7b\"questions\": 5.0\x7d") =
      Except.error PyErr.typeError ∧
    questionsSafe (PyVal.str "\x7b\"questions\": 5.0\x7d") = false :=
  ⟨rfl, rfl, rfl⟩

/-- The array-match loop skips every match that fails to parse, parses to
a non-list, or parses to an empty array, and returns the first match that
parses to a non-empty array. -/
lemma tryArrayMatches_first : ∀ (pre : List String) (m : String) (rest : List String)
    (l : List PyVal),
    (∀ m2 ∈ pre, ∀ l2, jsonParse m2 = some (PyVal.list l2) → l2 = []) →
    jsonParse m = some (PyVal.list l) → l ≠ [] →
    tryArrayMatches (pre ++ m :: rest) = some l := by
  intro pre
  induction pre with
  | nil =>
    intro m rest l _ hparse hl
    simp only [List.nil_append, tryArrayMatches, hparse, if_pos (List.length_pos.mpr hl)]
  | cons p ps ih =>
    intro m rest l hpre hparse hl
    have hp := hpre p (List.mem_cons_self p ps)
    have hps : ∀ m2 ∈ ps, ∀ l2, jsonParse m2 = some (PyVal.list l2) → l2 = [] :=
      fun m2 hm2 => hpre m2 (List.mem_cons_of_mem p hm2)
    rw [List.cons_append]
    simp only [tryArrayMatches]
    rcases hjp : jsonParse p with _ | (s | n | f | b | _ | l2 | kvs)
    · simp only [hjp]; exact ih m rest l hps hparse hl
    · simp only [hjp]; exact ih m rest l hps hparse hl
    · simp only [hjp]; exact ih m rest l hps hparse hl
    · simp only [hjp]; exact ih m rest l hps hparse hl
    · simp only [hjp]; exact ih m rest l hps hparse hl
    · simp only [hjp]; exact ih m rest l hps hparse hl
    · have h2 : l2 = [] := hp l2 hjp
      subst h2
      simp only [hjp]
      rw [if_neg (by simp)]
      exact ih m rest l hps hparse hl
    · simp only [hjp]; exact ih m rest l hps hparse hl

/-- **C9 (amended).** When the direct parse of the cleaned response fails,
the array-scanning step returns the questions parsed from the FIRST
regex match (in document order) whose parse yields a non-empty JSON
array — every earlier match fails to parse, parses to a non-list, or
parses to an empty array — not from the longest bracket-delimited array:
the pattern's bodies are non-greedy and matches are scanned left to
right. -/
theorem array_scan_first_nonempty (s : String) (pre : List String) (m : String)
    (rest : List String) (l : List PyVal)
    (hdirect : jsonParse (cleanFences (pyStrip s)) = none)
    (hfind : findall arrayPattern (cleanFences (pyStrip s)) = pre ++ m :: rest)
    (hpre : ∀ m2 ∈ pre, ∀ l2, jsonParse m2 = some (PyVal.list l2) → l2 = [])
    (hparse : jsonParse m = some (PyVal.list l)) (hnonempty : l ≠ []) :
    extract_json_robust (PyVal.str s) = Except.ok (PyVal.list l) := by
  show extractFromString s = Except.ok (PyVal.list l)
  simp only [extractFromString, hdirect, hfind]
  rw [tryArrayMatches_first pre m rest l hpre hparse hnonempty]

/-- Witness for C9 (amended): on a prose-wrapped response holding two
bracketed arrays, the extractor returns the first array's single object. -/
theorem array_scan_first_nonempty_witness :
    extract_json_robust (PyVal.str
        "x [\x7b\"type\": \"mcq\"\x7d] [\x7b\"type\": \"theory\"\x7d, \x7b\"type\": \"mcq\"\x7d]") =
      Except.ok (PyVal.list [PyVal.dict [("type", PyVal.str "mcq")]]) :=
  array_scan_first_nonempty
    "x [\x7b\"type\": \"mcq\"\x7d] [\x7b\"type\": \"theory\"\x7d, \x7b\"type\": \"mcq\"\x7d]"
    [] "[\x7b\"type\": \"mcq\"\x7d]"
    ["[\x7b\"type\": \"theory\"\x7d, \x7b\"type\": \"mcq\"\x7d]"]
    [PyVal.dict [("type", PyVal.str "mcq")]] rfl rfl (by simp) rfl (by simp)

/-- Counterexample to C9 as stated: the regex scan finds two
bracket-delimited arrays; the longest (two question-shaped objects,
occurring verbatim in the input and parsing successfully) is NOT the one
returned — the extractor returns the first, one-element array. -/
theorem array_scan_longest_counterexample :
    findall arrayPattern (cleanFences (pyStrip
        "x [\x7b\"type\": \"mcq\"\x7d] [\x7b\"type\": \"theory\"\x7d, \x7b\"type\": \"mcq\"\x7d]")) =
      ["[\x7b\"type\": \"mcq\"\x7d]", "[\x7b\"type\": \"theory\"\x7d, \x7b\"type\": \"mcq\"\x7d]"] ∧
    jsonParse "[\x7b\"type\": \"theory\"\x7d, \x7b\"type\": \"mcq\"\x7d]" =
      some (PyVal.list [PyVal.dict [("type", PyVal.str "theory")],
        PyVal.dict [("type", PyVal.str "mcq")]]) ∧
    isSubListOf "[\x7b\"type\": \"theory\"\x7d, \x7b\"type\": \"mcq\"\x7d]".toList
      "x [\x7b\"type\": \"mcq\"\x7d] [\x7b\"type\": \"theory\"\x7d, \x7b\"type\": \"mcq\"\x7d]".toList = true ∧
    extract_json_robust (PyVal.str
        "x [\x7b\"type\": \"mcq\"\x7d] [\x7b\"type\": \"theory\"\x7d, \x7b\"type\": \"mcq\"\x7d]") =
      Except.ok (PyVal.list [PyVal.dict [("type", PyVal.str "mcq")]]) :=
  ⟨rfl, rfl, by decide, rfl⟩
